import Mathlib

set_option maxRecDepth 10000

/- A shallow embedding of the user-mode engine of SynchronousAudioRouter
(src/SarAsio/sarclient.cpp): the per-cycle tick over the shared endpoint
registers, the mux/demux sample codec and the session lifecycle, together
with proofs about them.  Byte buffers are lists of natural numbers; the
32-bit unsigned (DWORD) arithmetic of the source is made explicit by
reduction modulo 2 ^ 32. -/

/-- Reduction modulo 2 ^ 32, the DWORD arithmetic of the source. -/
def dword (n : Nat) : Nat := n % 2 ^ 32

/-- Modelled from the spec: macro `GENERATION_IS_ACTIVE` is defined in
`sarclient.h`, which is not among the provided sources; per the spec the high
bit of the 32-bit generation value encodes that the endpoint has an active
client. -/
def GENERATION_IS_ACTIVE (g : Nat) : Bool := Nat.testBit g 31

/-- Modelled from the spec: macro `GENERATION_NUMBER` is defined in
`sarclient.h`, which is not among the provided sources; per the spec the low
bits of the generation value encode the monotonically increasing
configuration epoch. -/
def GENERATION_NUMBER (g : Nat) : Nat := g % 2 ^ 31

/-- Embedding of `memcpy(tgt + j, bs, bs.length)`: overwrite the bytes of
`tgt` from offset `j` on with `bs`, clamped to the extent of `tgt` (the C
callers below always stay in bounds). -/
def writeBytes (tgt : List Nat) (j : Nat) (bs : List Nat) : List Nat :=
  tgt.take j ++ bs.take (tgt.length - j) ++ tgt.drop (j + bs.length)

/-- Reading `n` bytes at byte offset `pos` of a buffer. -/
def readBytes (src : List Nat) (pos n : Nat) : List Nat :=
  (src.drop pos).take n

/-- Inner copy loop of `SarClient::demux` (sarclient.cpp lines 501 to 513)
for one target channel: `pos` is the offset of the read cursor `buf` inside
the current ring segment, `remaining` counts the segment bytes left from the
start of the current frame, `inSecond` tells which segment the cursor is in,
and `j` is the write offset inside the target buffer.  When a frame exhausts
the segment the cursor switches to the second segment at offset `chanOff`
with `remaining` reset to `secondLen`.  The fuel argument bounds the number
of iterations; `j` grows by `sampleSize` per iteration, so `targetSize` fuel
suffices whenever `sampleSize` is positive. -/
def demuxChanLoop (first second : List Nat)
    (sampleSize stride chanOff targetSize secondLen : Nat) :
    Nat → Bool → Nat → Nat → Nat → List Nat → List Nat
  | 0, _, _, _, _, tgt => tgt
  | fuel + 1, inSecond, pos, remaining, j, tgt =>
    if j < targetSize ∧ stride ≤ remaining then
      let seg := if inSecond then second else first
      let tgt2 := writeBytes tgt j (readBytes seg pos sampleSize)
      let remaining2 := remaining - stride
      if remaining2 = 0 then
        demuxChanLoop first second sampleSize stride chanOff targetSize secondLen
          fuel true chanOff secondLen (j + sampleSize) tgt2
      else
        demuxChanLoop first second sampleSize stride chanOff targetSize secondLen
          fuel inSecond (pos + stride) remaining2 (j + sampleSize) tgt2
    else tgt

/-- One step of the per-channel loop of `SarClient::demux` (lines 493 to 514):
a null target pointer is skipped, otherwise the channel is deinterleaved from
the ring segments. -/
def demuxCopyStep (first second : List Nat) (sampleSize stride targetSize : Nat)
    (ts : List (Option (List Nat))) (i : Nat) : List (Option (List Nat)) :=
  match ts.getD i none with
  | none => ts
  | some tgt =>
    ts.set i (some (demuxChanLoop first second sampleSize stride
      (sampleSize * i) targetSize second.length targetSize
      false (sampleSize * i) first.length 0 tgt))

/-- One step of the trailing silence loop of `SarClient::demux` (lines 517 to
521): target channels not present in the source are zero-filled, null targets
are skipped. -/
def demuxSilenceStep (targetSize : Nat)
    (ts : List (Option (List Nat))) (i : Nat) : List (Option (List Nat)) :=
  match ts.getD i none with
  | none => ts
  | some tgt => ts.set i (some (writeBytes tgt 0 (List.replicate targetSize 0)))

/-- Embedding of `SarClient::demux` (sarclient.cpp lines 481 to 522).  The C
pointer and size pairs for the two ring segments become byte lists, so
`firstSize` is `first.length` and `secondSize` is `second.length`; the target
buffer array becomes a list of optional byte lists, `none` standing for a
null pointer.  `sourceStride` is computed from `nsources` before the clamp to
`ntargets`, exactly as in the source. -/
def SarClient.demux (first second : List Nat)
    (targets : List (Option (List Nat)))
    (ntargets nsources targetSize sampleSize : Nat) : List (Option (List Nat)) :=
  let sourceStride := sampleSize * nsources
  let ns := if nsources > ntargets then ntargets else nsources
  (List.range' ns (ntargets - ns)).foldl (demuxSilenceStep targetSize)
    ((List.range ns).foldl
      (demuxCopyStep first second sampleSize sourceStride targetSize) targets)

/-- Inner copy loop of `SarClient::mux` (sarclient.cpp lines 545 to 557) for
one target channel: the mirror image of `demuxChanLoop`, reading
`sampleSize` bytes at offset `j` of the target and interleaving them into the
ring segments at cursor offset `pos`. -/
def muxChanLoop (tgt : List Nat)
    (sampleSize stride chanOff targetSize secondLen : Nat) :
    Nat → List Nat → List Nat → Bool → Nat → Nat → Nat → List Nat × List Nat
  | 0, f, sec, _, _, _, _ => (f, sec)
  | fuel + 1, f, sec, inSecond, pos, remaining, j =>
    if j < targetSize ∧ stride ≤ remaining then
      let bytes := readBytes tgt j sampleSize
      let f2 := if inSecond then f else writeBytes f pos bytes
      let sec2 := if inSecond then writeBytes sec pos bytes else sec
      let remaining2 := remaining - stride
      if remaining2 = 0 then
        muxChanLoop tgt sampleSize stride chanOff targetSize secondLen
          fuel f2 sec2 true chanOff secondLen (j + sampleSize)
      else
        muxChanLoop tgt sampleSize stride chanOff targetSize secondLen
          fuel f2 sec2 inSecond (pos + stride) remaining2 (j + sampleSize)
    else (f, sec)

/-- One step of the per-channel loop of `SarClient::mux` (lines 537 to 558):
a null target pointer is skipped (neither read nor written), otherwise the
channel is interleaved into the ring segments. -/
def muxChanStep (targets : List (Option (List Nat)))
    (sampleSize stride targetSize : Nat)
    (fs : List Nat × List Nat) (i : Nat) : List Nat × List Nat :=
  match targets.getD i none with
  | none => fs
  | some tgt =>
    muxChanLoop tgt sampleSize stride (sampleSize * i) targetSize fs.2.length
      targetSize fs.1 fs.2 false (sampleSize * i) fs.1.length 0

/-- Embedding of `SarClient::mux` (sarclient.cpp lines 525 to 559): the
inverse direction of `SarClient.demux`, returning the two updated ring
segments.  Target channels beyond `nsources` are simply not read. -/
def SarClient.mux (first second : List Nat)
    (targets : List (Option (List Nat)))
    (ntargets nsources targetSize sampleSize : Nat) : List Nat × List Nat :=
  let sourceStride := sampleSize * nsources
  let ns := if nsources > ntargets then ntargets else nsources
  (List.range ns).foldl
    (muxChanStep targets sampleSize sourceStride targetSize) (first, second)

/-- Direction of an endpoint (`EndpointType` in the source). -/
inductive EndpointType where
  | Playback
  | Recording
deriving DecidableEq

/-- The per-endpoint register block shared with the driver
(`SarEndpointRegisters`); all fields are 32-bit values written by the driver
except `positionRegister`, which the engine owns. -/
structure SarEndpointRegisters where
  generation : Nat
  activeChannelCount : Nat
  bufferOffset : Nat
  bufferSize : Nat
  positionRegister : Nat
  notificationCount : Nat
deriving DecidableEq

/-- Cached notification handle entry for one endpoint: the OS handle (none
standing for a null `HANDLE`) and the generation for which it was issued. -/
structure NotificationHandle where
  handle : Option Nat
  generation : Nat
deriving DecidableEq

/-- Observable outcome of processing one endpoint inside `SarClient::tick`:
the final contents of the target (ASIO) buffers, the value stored into the
shared `positionRegister` if any (`none` when the tick leaves it alone), the
`SetEvent` signal, and the shared ring memory after any recording-side mux
writes. -/
structure TickEndpointResult where
  targets : List (Option (List Nat))
  positionWrite : Option Nat
  signaled : Bool
  shared : List Nat
deriving DecidableEq

/-- Next value of the position register computed by `SarClient::tick`
(sarclient.cpp lines 99 to 100): `(positionRegister + frameChunkSize) %
endpointBufferSize` in DWORD arithmetic. -/
def nextPositionRegister (positionRegister frameChunkSize endpointBufferSize : Nat) : Nat :=
  dword (positionRegister + frameChunkSize) % endpointBufferSize

/-- The silence loops of `SarClient::tick` (lines 90 to 94, 131 to 135 and
169 to 173): every non-null target buffer is zero-filled for
`asioBufferSize` bytes, null targets are skipped. -/
def zeroTargets (targets : List (Option (List Nat))) (asioBufferSize : Nat) :
    List (Option (List Nat)) :=
  targets.map (Option.map (fun t => writeBytes t 0 (List.replicate asioBufferSize 0)))

/-- Processing of one endpoint inside `SarClient::tick` (sarclient.cpp lines
63 to 180).  The snapshot of the endpoint register block is `reg`;
`lateGeneration` is the value the post-copy re-read of
`_registers[i].generation` observes, supplied as an input because the driver
may change it concurrently; `nh` is the cached notification handle entry as
observed at line 155 (its asynchronous refresh is platform IO outside this
model).  Shared memory is the byte list `shared` together with the mapped
size `sharedBufferSize`. -/
def SarClient.tickEndpoint (etype : EndpointType)
    (sampleSize asioBufferSize sharedBufferSize : Nat) (shared : List Nat)
    (reg : SarEndpointRegisters) (lateGeneration : Nat)
    (nh : NotificationHandle) (asioBuffers : List (Option (List Nat))) :
    TickEndpointResult :=
  let activeChannelCount := reg.activeChannelCount
  let generation := reg.generation
  let endpointBufferOffset := reg.bufferOffset
  let endpointBufferSize := reg.bufferSize
  let positionRegister := reg.positionRegister
  let ntargets := asioBuffers.length
  let frameChunkSize := dword (asioBufferSize * activeChannelCount)
  let notificationCount := reg.notificationCount
  if GENERATION_IS_ACTIVE generation = false ∨ endpointBufferSize = 0 ∨
      positionRegister > endpointBufferSize ∨
      dword (endpointBufferOffset + endpointBufferSize) > sharedBufferSize then
    { targets := zeroTargets asioBuffers asioBufferSize
      positionWrite := none
      signaled := false
      shared := shared }
  else
    let nextPosition := nextPositionRegister positionRegister frameChunkSize endpointBufferSize
    let position := dword (positionRegister + endpointBufferOffset)
    let firstSize := min frameChunkSize (endpointBufferSize - positionRegister)
    let secondSize := frameChunkSize - firstSize
    let endpointDataFirst := readBytes shared position firstSize
    let endpointDataSecond := readBytes shared endpointBufferOffset secondSize
    let copied :=
      match etype with
      | EndpointType.Playback =>
        (SarClient.demux endpointDataFirst endpointDataSecond asioBuffers
          ntargets activeChannelCount asioBufferSize sampleSize, shared)
      | EndpointType.Recording =>
        let ms := SarClient.mux endpointDataFirst endpointDataSecond asioBuffers
          ntargets activeChannelCount asioBufferSize sampleSize
        (asioBuffers,
          writeBytes (writeBytes shared position ms.1) endpointBufferOffset ms.2)
    if GENERATION_IS_ACTIVE lateGeneration = false ∨
        GENERATION_NUMBER generation ≠ GENERATION_NUMBER lateGeneration then
      { targets := zeroTargets copied.1 asioBufferSize
        positionWrite := none
        signaled := false
        shared := copied.2 }
    else if (1 ≤ notificationCount ∧ endpointBufferSize / 2 ≤ positionRegister ∧
          nextPosition < endpointBufferSize / 2) ∨
        (2 ≤ notificationCount ∧ endpointBufferSize / 2 ≤ nextPosition ∧
          positionRegister < endpointBufferSize / 2) then
      if nh.handle.isSome = true ∧
          GENERATION_NUMBER nh.generation = GENERATION_NUMBER generation then
        { targets := copied.1
          positionWrite := some nextPosition
          signaled := true
          shared := copied.2 }
      else
        { targets := zeroTargets copied.1 asioBufferSize
          positionWrite := none
          signaled := false
          shared := copied.2 }
    else
      { targets := copied.1
        positionWrite := some nextPosition
        signaled := false
        shared := copied.2 }

/-- Embedding of `SarClient::tick` (sarclient.cpp lines 34 to 181): under the
registers lock the tick is a no-op when `_registers` has been torn down,
otherwise every endpoint is processed in order with the shared ring memory
threaded through (recording endpoints write into it).  The per-endpoint
late generation re-reads and cached notification handles are inputs, as in
`SarClient.tickEndpoint`. -/
def SarClient.tick (etypes : List EndpointType)
    (sampleSize asioBufferSize sharedBufferSize : Nat)
    (registers : Option (List SarEndpointRegisters))
    (lateGenerations : List Nat) (notificationHandles : List NotificationHandle)
    (shared : List Nat) (asioBuffers : List (List (Option (List Nat)))) :
    Option (List TickEndpointResult) :=
  match registers with
  | none => none
  | some regs =>
    some (((List.range etypes.length).foldl (fun acc i =>
      let r := SarClient.tickEndpoint (etypes.getD i EndpointType.Playback)
        sampleSize asioBufferSize sharedBufferSize acc.2
        (regs.getD i ⟨0, 0, 0, 0, 0, 0⟩) (lateGenerations.getD i 0)
        (notificationHandles.getD i ⟨none, 0⟩) (asioBuffers.getD i [])
      (acc.1 ++ [r], r.shared)) (([] : List TickEndpointResult), shared)).1)

/-- Session state fields touched by `SarClient::stop`: which platform
resources are currently live, plus the shared region bookkeeping cleared
under `_registersLock`. -/
structure SessionState where
  mmNotificationClientRegistered : Bool
  mmNotificationClient : Bool
  mmEnumerator : Bool
  deviceOpen : Bool
  registersMapped : Bool
  sharedBufferMapped : Bool
  sharedBufferSize : Nat
  completionPort : Bool
deriving DecidableEq

/-- State update performed by `SarClient::stop` (sarclient.cpp lines 215 to
248): each release call is guarded by the corresponding resource being live,
and tearing down the device also clears the registers pointer, the shared
buffer pointer and its size. -/
def SarClient.stop (s : SessionState) : SessionState :=
  let s1 := if s.mmNotificationClientRegistered then
    { s with mmNotificationClientRegistered := false } else s
  let s2 := if s1.mmNotificationClient then
    { s1 with mmNotificationClient := false } else s1
  let s3 := if s2.mmEnumerator then { s2 with mmEnumerator := false } else s2
  let s4 := if s3.deviceOpen then
    { s3 with
      deviceOpen := false
      registersMapped := false
      sharedBufferMapped := false
      sharedBufferSize := 0 } else s3
  if s4.completionPort then { s4 with completionPort := false } else s4

/-- Success or failure of each platform helper invoked by `SarClient::start`,
supplied as an oracle. -/
structure StartCalls where
  openControlDevice : Bool
  openMmNotificationClient : Bool
  setBufferLayout : Bool
  createEndpoints : Bool
  enableRegistryFilter : Bool
deriving DecidableEq

/-- Result of `SarClient::start`: the returned boolean and whether `stop()`
was invoked on the way out. -/
structure StartResult where
  ok : Bool
  stopCalled : Bool
deriving DecidableEq

/-- Control flow of `SarClient::start` (sarclient.cpp lines 183 to 213): a
failed `openControlDevice` returns false at once without calling `stop()`,
each later bootstrap failure calls `stop()` and returns false, and a failed
registry filter is only logged. -/
def SarClient.start (c : StartCalls) : StartResult :=
  if c.openControlDevice = false then ⟨false, false⟩
  else if c.openMmNotificationClient = false then ⟨false, true⟩
  else if c.setBufferLayout = false then ⟨false, true⟩
  else if c.createEndpoints = false then ⟨false, true⟩
  else ⟨true, false⟩

/-- Frame-indexed description of the per-channel codec traversal used to
reason about mux and demux: with `a` whole frames of stride `st` in the
first ring segment, frame `k` touches `sampleSize` bytes at offset
`chanOff + k * st` of the first segment while `k < a` and at
`chanOff + (k - a) * st` of the second segment afterwards.  `demuxFrames`
folds the demux direction of this traversal over a list of frame indices. -/
def demuxFrames (first second : List Nat) (s st a chanOff : Nat)
    (frames : List Nat) (tgt : List Nat) : List Nat :=
  frames.foldl (fun t k =>
    if k < a then writeBytes t (k * s) (readBytes first (chanOff + k * st) s)
    else writeBytes t (k * s) (readBytes second (chanOff + (k - a) * st) s)) tgt

/-- The mux direction of the frame traversal: frame `k` reads `sampleSize`
bytes at offset `k * sampleSize` of the channel buffer and writes them at
the frame position inside the pair of ring segments. -/
def muxFrames (tgt : List Nat) (s st a chanOff : Nat) (frames : List Nat)
    (fs : List Nat × List Nat) : List Nat × List Nat :=
  frames.foldl (fun fs k =>
    if k < a then (writeBytes fs.1 (chanOff + k * st) (readBytes tgt (k * s) s), fs.2)
    else (fs.1, writeBytes fs.2 (chanOff + (k - a) * st) (readBytes tgt (k * s) s))) fs

/-- Writing a block of bytes preserves the length of the buffer. -/
theorem writeBytes_length (tgt bs : List Nat) (j : Nat) :
    (writeBytes tgt j bs).length = tgt.length := by
  simp only [writeBytes, List.length_append, List.length_take, List.length_drop]
  omega

/-- Length of a byte read. -/
theorem readBytes_length (src : List Nat) (pos n : Nat) :
    (readBytes src pos n).length = min n (src.length - pos) := by
  simp [readBytes]

/-- Pointwise description of `writeBytes` for an in-bounds write. -/
theorem writeBytes_getElem? (tgt bs : List Nat) (j p : Nat)
    (h : j + bs.length ≤ tgt.length) :
    (writeBytes tgt j bs)[p]? =
      if j ≤ p ∧ p < j + bs.length then bs[p - j]? else tgt[p]? := by
  have h1 : (tgt.take j).length = j := by
    rw [List.length_take]
    omega
  rw [writeBytes, List.take_of_length_le (show bs.length ≤ tgt.length - j by omega),
    List.append_assoc, List.getElem?_append]
  by_cases hp : p < j
  · rw [if_pos (by rw [h1]; exact hp), List.getElem?_take, if_pos hp,
      if_neg (by omega)]
  · rw [if_neg (by rw [h1]; omega), List.getElem?_append, h1]
    by_cases hp2 : p - j < bs.length
    · rw [if_pos hp2, if_pos (by omega)]
    · rw [if_neg hp2, List.getElem?_drop, if_neg (by omega)]
      congr 1
      omega

/-- Pointwise description of `readBytes`. -/
theorem readBytes_getElem? (src : List Nat) (pos n k : Nat) :
    (readBytes src pos n)[k]? = if k < n then src[pos + k]? else none := by
  rw [readBytes, List.getElem?_take]
  by_cases hk : k < n
  · rw [if_pos hk, if_pos hk, List.getElem?_drop]
  · rw [if_neg hk, if_neg hk]

/-- Zero-filling a buffer of exactly the fill size replaces it by zeros. -/
theorem writeBytes_replicate_eq (t : List Nat) (A : Nat) (h : t.length = A) :
    writeBytes t 0 (List.replicate A 0) = List.replicate A 0 := by
  rw [writeBytes, List.length_replicate, List.take_zero,
    List.take_of_length_le (by rw [List.length_replicate]; omega),
    List.drop_eq_nil_of_le (by omega)]
  simp

/-- Entrywise description of the silence loops of the tick. -/
theorem zeroTargets_getD (ts : List (Option (List Nat))) (A i : Nat) :
    (zeroTargets ts A).getD i none =
      Option.map (fun t => writeBytes t 0 (List.replicate A 0)) (ts.getD i none) := by
  rw [zeroTargets, List.getD_eq_getElem?_getD, List.getD_eq_getElem?_getD,
    List.getElem?_map]
  cases ts[i]? <;> rfl

/-- The demux inner loop never changes the length of the target buffer. -/
theorem demuxChanLoop_length (first second : List Nat) (s st c T S : Nat) :
    ∀ fuel b pos rem j tgt,
      (demuxChanLoop first second s st c T S fuel b pos rem j tgt).length
        = tgt.length := by
  intro fuel
  induction fuel with
  | zero => intro b pos rem j tgt; rfl
  | succ n ih =>
    intro b pos rem j tgt
    rw [demuxChanLoop]
    dsimp only
    split
    · split
      · rw [ih, writeBytes_length]
      · rw [ih, writeBytes_length]
    · rfl

/-- The mux inner loop never changes the lengths of the ring segments. -/
theorem muxChanLoop_length (tgt : List Nat) (s st c T S : Nat) :
    ∀ fuel f sec b pos rem j,
      (muxChanLoop tgt s st c T S fuel f sec b pos rem j).1.length = f.length ∧
      (muxChanLoop tgt s st c T S fuel f sec b pos rem j).2.length = sec.length := by
  intro fuel
  induction fuel with
  | zero => intro f sec b pos rem j; exact ⟨rfl, rfl⟩
  | succ n ih =>
    intro f sec b pos rem j
    rw [muxChanLoop]
    dsimp only
    split
    · split
      · refine ⟨((ih _ _ _ _ _ _).1).trans ?_, ((ih _ _ _ _ _ _).2).trans ?_⟩
        · split <;> simp [writeBytes_length]
        · split <;> simp [writeBytes_length]
      · refine ⟨((ih _ _ _ _ _ _).1).trans ?_, ((ih _ _ _ _ _ _).2).trans ?_⟩
        · split <;> simp [writeBytes_length]
        · split <;> simp [writeBytes_length]
    · exact ⟨rfl, rfl⟩

/-- A fold step that edits only the entry at its own index leaves every
other entry unchanged. -/
theorem foldl_localStep_getD_not_mem
    (step : List (Option (List Nat)) → Nat → List (Option (List Nat)))
    (hstep : ∀ ts i k, k ≠ i → (step ts i).getD k none = ts.getD k none)
    (L : List Nat) (k : Nat) (hk : k ∉ L) :
    ∀ ts, (L.foldl step ts).getD k none = ts.getD k none := by
  induction L with
  | nil => intro ts; rfl
  | cons a L ih =>
    intro ts
    rw [List.foldl_cons, ih (fun h => hk (List.mem_cons_of_mem a h)),
      hstep ts a k (fun h => hk (by rw [h]; exact List.mem_cons_self a L))]

/-- A fold of index-local steps over a contiguous index range rewrites the
entry at each covered index exactly once, from its original value. -/
theorem foldl_localStep_getD_range'
    (step : List (Option (List Nat)) → Nat → List (Option (List Nat)))
    (transform : Nat → Option (List Nat) → Option (List Nat))
    (hstep1 : ∀ ts i k, k ≠ i → (step ts i).getD k none = ts.getD k none)
    (hstep2 : ∀ ts i, (step ts i).getD i none = transform i (ts.getD i none)) :
    ∀ c m k ts, m ≤ k → k < m + c →
      ((List.range' m c).foldl step ts).getD k none
        = transform k (ts.getD k none) := by
  intro c
  induction c with
  | zero => intro m k ts h1 h2; omega
  | succ n ih =>
    intro m k ts h1 h2
    rw [List.range'_succ, List.foldl_cons]
    rcases Nat.eq_or_lt_of_le h1 with heq | hlt
    · rw [foldl_localStep_getD_not_mem step hstep1 _ k
        (by rw [List.mem_range'_1]; omega), ← heq, hstep2]
    · rw [ih (m + 1) k _ hlt (by omega), hstep1 ts m k (by omega)]

/-- A fold of length-preserving steps preserves the length. -/
theorem foldl_localStep_length
    (step : List (Option (List Nat)) → Nat → List (Option (List Nat)))
    (hstep : ∀ ts i, (step ts i).length = ts.length)
    (L : List Nat) : ∀ ts, (L.foldl step ts).length = ts.length := by
  induction L with
  | nil => intro ts; rfl
  | cons a L ih => intro ts; rw [List.foldl_cons, ih, hstep]

/-- The demux copy step edits only its own channel index. -/
theorem demuxCopyStep_getD_ne (first second : List Nat) (sz st T : Nat)
    (ts : List (Option (List Nat))) (i k : Nat) (hk : k ≠ i) :
    (demuxCopyStep first second sz st T ts i).getD k none = ts.getD k none := by
  rw [demuxCopyStep]
  cases h : ts.getD i none with
  | none => rfl
  | some tgt =>
    rw [List.getD_eq_getElem?_getD, List.getD_eq_getElem?_getD,
      List.getElem?_set_ne (Ne.symm hk)]

/-- The demux copy step rewrites its own channel entry through the inner
copy loop, skipping a null pointer. -/
theorem demuxCopyStep_getD_self (first second : List Nat) (sz st T : Nat)
    (ts : List (Option (List Nat))) (i : Nat) :
    (demuxCopyStep first second sz st T ts i).getD i none =
      Option.map (fun tgt => demuxChanLoop first second sz st (sz * i) T
        second.length T false (sz * i) first.length 0 tgt) (ts.getD i none) := by
  rw [demuxCopyStep]
  cases h : ts.getD i none with
  | none => rw [h]; rfl
  | some tgt =>
    have hlt : i < ts.length := by
      rw [List.getD_eq_getElem?_getD] at h
      cases hh : ts[i]? with
      | none => rw [hh] at h; exact absurd h (by simp)
      | some o => exact (List.getElem?_eq_some.1 hh).1
    rw [List.getD_eq_getElem?_getD, List.getElem?_set_self hlt]
    rfl

/-- The demux silence step edits only its own channel index. -/
theorem demuxSilenceStep_getD_ne (T : Nat)
    (ts : List (Option (List Nat))) (i k : Nat) (hk : k ≠ i) :
    (demuxSilenceStep T ts i).getD k none = ts.getD k none := by
  rw [demuxSilenceStep]
  cases h : ts.getD i none with
  | none => rfl
  | some tgt =>
    rw [List.getD_eq_getElem?_getD, List.getD_eq_getElem?_getD,
      List.getElem?_set_ne (Ne.symm hk)]

/-- The demux silence step zero-fills its own channel entry, skipping a null
pointer. -/
theorem demuxSilenceStep_getD_self (T : Nat)
    (ts : List (Option (List Nat))) (i : Nat) :
    (demuxSilenceStep T ts i).getD i none =
      Option.map (fun tgt => writeBytes tgt 0 (List.replicate T 0))
        (ts.getD i none) := by
  rw [demuxSilenceStep]
  cases h : ts.getD i none with
  | none => rw [h]; rfl
  | some tgt =>
    have hlt : i < ts.length := by
      rw [List.getD_eq_getElem?_getD] at h
      cases hh : ts[i]? with
      | none => rw [hh] at h; exact absurd h (by simp)
      | some o => exact (List.getElem?_eq_some.1 hh).1
    rw [List.getD_eq_getElem?_getD, List.getElem?_set_self hlt]
    rfl

/-- Full entrywise description of `SarClient.demux`: channels below the
clamped source count are deinterleaved from the ring, channels from there up
to `ntargets` are zero-filled, channels past `ntargets` are untouched, and a
null channel stays null throughout. -/
theorem demux_getD (first second : List Nat) (ts : List (Option (List Nat)))
    (nt ns T sz k : Nat) :
    (SarClient.demux first second ts nt ns T sz).getD k none =
      Option.map (fun tgt =>
        if k < (if ns > nt then nt else ns) then
          demuxChanLoop first second sz (sz * ns) (sz * k) T second.length T
            false (sz * k) first.length 0 tgt
        else if k < nt then writeBytes tgt 0 (List.replicate T 0)
        else tgt) (ts.getD k none) := by
  have hns : (if ns > nt then nt else ns) ≤ nt := by split <;> omega
  rw [SarClient.demux]
  by_cases h1 : k < (if ns > nt then nt else ns)
  · rw [foldl_localStep_getD_not_mem _ (demuxSilenceStep_getD_ne T) _ k
      (by rw [List.mem_range'_1]; omega),
      List.range_eq_range',
      foldl_localStep_getD_range' _ _
        (demuxCopyStep_getD_ne first second sz (sz * ns) T)
        (demuxCopyStep_getD_self first second sz (sz * ns) T)
        _ 0 k ts (Nat.zero_le k) (by omega)]
    cases ts.getD k none with
    | none => rfl
    | some tgt => simp [h1]
  · by_cases h2 : k < nt
    · rw [foldl_localStep_getD_range' _
        (fun i o => Option.map (fun tgt => writeBytes tgt 0 (List.replicate T 0)) o)
        (demuxSilenceStep_getD_ne T) (demuxSilenceStep_getD_self T)
        _ _ k _ (by omega) (by omega),
        List.range_eq_range',
        foldl_localStep_getD_not_mem _
          (demuxCopyStep_getD_ne first second sz (sz * ns) T) _ k
          (by rw [List.mem_range'_1]; omega)]
      cases ts.getD k none with
      | none => rfl
      | some tgt => simp [h1, h2]
    · rw [foldl_localStep_getD_not_mem _ (demuxSilenceStep_getD_ne T) _ k
        (by rw [List.mem_range'_1]; omega),
        List.range_eq_range',
        foldl_localStep_getD_not_mem _
          (demuxCopyStep_getD_ne first second sz (sz * ns) T) _ k
          (by rw [List.mem_range'_1]; omega)]
      cases ts.getD k none with
      | none => rfl
      | some tgt => simp [h1, h2]

/-- C9: `stop()` is idempotent: a second call finds every resource guard
already cleared and changes nothing, so the torn-down session state (device,
registers pointer, shared buffer pointer and size, notification client
registration, completion port) is identical after one call and after two. -/
theorem stop_idempotent (s : SessionState) :
    SarClient.stop (SarClient.stop s) = SarClient.stop s := by
  rcases s with ⟨r, c, e, d, rg, sb, sz, cp⟩
  cases r <;> cases c <;> cases e <;> cases d <;> cases cp <;> rfl

/-- C8 counterexample: when opening the control channel fails, `start`
returns false but does not invoke `stop()` (sarclient.cpp lines 185 to 188),
contradicting the claim that every bootstrap failure unwinds via `stop()`. -/
theorem start_controlDevice_failure_no_stop :
    (SarClient.start ⟨false, true, true, true, true⟩).ok = false ∧
    (SarClient.start ⟨false, true, true, true, true⟩).stopCalled = false :=
  ⟨rfl, rfl⟩

/-- C8 amended: a failure of the notification client registration, the
layout negotiation or the endpoint creation makes `start` invoke `stop()`
and return false; a failure to open the control channel makes `start`
return false at once without invoking `stop()`. -/
theorem start_failure_unwinds (c : StartCalls) :
    (c.openControlDevice = false → SarClient.start c = ⟨false, false⟩) ∧
    (c.openControlDevice = true →
      (c.openMmNotificationClient = false ∨ c.setBufferLayout = false ∨
        c.createEndpoints = false) →
      (SarClient.start c).ok = false ∧ (SarClient.start c).stopCalled = true) := by
  rcases c with ⟨oc, om, sb, ce, rf⟩
  cases oc <;> cases om <;> cases sb <;> cases ce <;> simp [SarClient.start]

/-- Closed instance of `start_failure_unwinds`: a failed notification client
registration unwinds through `stop()`. -/
theorem start_failure_unwinds_witness :
    (SarClient.start ⟨true, false, true, true, true⟩).ok = false ∧
    (SarClient.start ⟨true, false, true, true, true⟩).stopCalled = true :=
  (start_failure_unwinds ⟨true, false, true, true, true⟩).2 rfl (Or.inl rfl)

/-- C4: when there are more source channels than targets, demux never writes
at or past `ntargets` (the extra source channels are dropped), and when
there are more targets than sources every non-null target channel in
`[nsources, ntargets)` is zero-filled over all `targetSize` bytes. -/
theorem demux_channel_bounds (first second : List Nat)
    (ts : List (Option (List Nat))) (nt ns T sz : Nat) :
    (ns > nt → ∀ k, nt ≤ k →
      (SarClient.demux first second ts nt ns T sz).getD k none = ts.getD k none) ∧
    (nt > ns → ∀ k t, ns ≤ k → k < nt → ts.getD k none = some t → t.length = T →
      (SarClient.demux first second ts nt ns T sz).getD k none
        = some (List.replicate T 0)) := by
  constructor
  · intro hgt k hk
    rw [demux_getD]
    have h1 : ¬ k < (if ns > nt then nt else ns) := by split <;> omega
    have h2 : ¬ k < nt := by omega
    cases ts.getD k none with
    | none => rfl
    | some tgt => simp [h1, h2]
  · intro hgt k t hk1 hk2 hsome ht
    rw [demux_getD, hsome]
    have h1 : ¬ k < (if ns > nt then nt else ns) := by split <;> omega
    simp [h1, hk2, writeBytes_replicate_eq t T ht]

/-- Closed instance of `demux_channel_bounds`: with one source channel and
two targets, the second target is zero-filled. -/
theorem demux_channel_bounds_witness :
    (2 : Nat) > 1 ∧
    (SarClient.demux [9] [] [some [5], some [5]] 2 1 1 1).getD 1 none
      = some (List.replicate 1 0) :=
  ⟨by decide,
    (demux_channel_bounds [9] [] [some [5], some [5]] 2 1 1 1).2 (by decide)
      1 [5] (by decide) (by decide) rfl rfl⟩

/-- Every entry of a demux result is the image of the corresponding input
entry and keeps its length. -/
theorem demux_getD_some (first second : List Nat) (ts : List (Option (List Nat)))
    (nt ns T sz k : Nat) (t : List Nat) (h : ts.getD k none = some t) :
    ∃ t2, (SarClient.demux first second ts nt ns T sz).getD k none = some t2 ∧
      t2.length = t.length := by
  rw [demux_getD, h, Option.map_some']
  refine ⟨_, rfl, ?_⟩
  by_cases h1 : k < (if ns > nt then nt else ns)
  · rw [if_pos h1, demuxChanLoop_length]
  · rw [if_neg h1]
    by_cases h2 : k < nt
    · rw [if_pos h2, writeBytes_length]
    · rw [if_neg h2]

/-- C6: a null entry in the target buffer array is never touched: the
per-channel demux copy and silence steps and the mux step leave everything
unchanged at a null channel (no read, no write), a null entry is still null
after a full demux, and it is still null in the target set produced by the
tick for an endpoint. -/
theorem null_channel_skipped :
    (∀ (first second : List Nat) (sz st T : Nat) ts (i : Nat),
      ts.getD i none = none → demuxCopyStep first second sz st T ts i = ts) ∧
    (∀ (T : Nat) ts (i : Nat),
      ts.getD i none = none → demuxSilenceStep T ts i = ts) ∧
    (∀ ts (sz st T : Nat) (fs : List Nat × List Nat) (i : Nat),
      ts.getD i none = none → muxChanStep ts sz st T fs i = fs) ∧
    (∀ (first second : List Nat) ts (nt ns T sz i : Nat),
      ts.getD i none = none →
      (SarClient.demux first second ts nt ns T sz).getD i none = none) ∧
    (∀ etype (sz A SB : Nat) (shared : List Nat) reg (lg : Nat) nh ts (i : Nat),
      ts.getD i none = none →
      (SarClient.tickEndpoint etype sz A SB shared reg lg nh ts).targets.getD i none
        = none) := by
  have hdemux : ∀ (first second : List Nat) ts (nt ns T sz i : Nat),
      ts.getD i none = none →
      (SarClient.demux first second ts nt ns T sz).getD i none = none := by
    intro first second ts nt ns T sz i h
    rw [demux_getD, h]
    rfl
  refine ⟨?_, ?_, ?_, hdemux, ?_⟩
  · intro first second sz st T ts i h
    rw [demuxCopyStep, h]
  · intro T ts i h
    rw [demuxSilenceStep, h]
  · intro ts sz st T fs i h
    rw [muxChanStep, h]
  · intro etype sz A SB shared reg lg nh ts i h
    have hzero : ∀ X : List (Option (List Nat)), X.getD i none = none →
        (zeroTargets X A).getD i none = none := by
      intro X hX
      rw [zeroTargets_getD, hX]
      rfl
    rw [SarClient.tickEndpoint]
    dsimp only
    split
    · exact hzero ts h
    · cases etype
      · dsimp only
        have hd := hdemux
          (readBytes shared (dword (reg.positionRegister + reg.bufferOffset))
            (min (dword (A * reg.activeChannelCount))
              (reg.bufferSize - reg.positionRegister)))
          (readBytes shared reg.bufferOffset
            (dword (A * reg.activeChannelCount) -
              min (dword (A * reg.activeChannelCount))
                (reg.bufferSize - reg.positionRegister)))
          ts ts.length reg.activeChannelCount A sz i h
        split
        · exact hzero _ hd
        · split
          · split
            · exact hd
            · exact hzero _ hd
          · exact hd
      · dsimp only
        split
        · exact hzero ts h
        · split
          · split
            · exact h
            · exact hzero ts h
          · exact h

/-- Closed instance of `null_channel_skipped`: a null channel survives a
demux untouched. -/
theorem null_channel_skipped_witness :
    ([none] : List (Option (List Nat))).getD 0 none = none ∧
    (SarClient.demux [1] [] [none] 1 1 1 1).getD 0 none = none :=
  ⟨rfl, null_channel_skipped.2.2.2.1 [1] [] [none] 1 1 1 1 0 rfl⟩

/-- Under the four validity facts the silence-path condition of the tick is
false. -/
theorem tick_silence_cond_false (reg : SarEndpointRegisters) (SB : Nat)
    (hactive : GENERATION_IS_ACTIVE reg.generation = true)
    (hsz : reg.bufferSize ≠ 0)
    (hpos : reg.positionRegister ≤ reg.bufferSize)
    (hoff : dword (reg.bufferOffset + reg.bufferSize) ≤ SB) :
    ¬(GENERATION_IS_ACTIVE reg.generation = false ∨ reg.bufferSize = 0 ∨
      reg.positionRegister > reg.bufferSize ∨
      dword (reg.bufferOffset + reg.bufferSize) > SB) := by
  rintro (hc | hc | hc | hc)
  · rw [hactive] at hc
    exact Bool.noConfusion hc
  · exact hsz hc
  · omega
  · omega

/-- Entries of the demux invoked by the tick on a playback endpoint keep
their length. -/
theorem demux_tick_entry (shared : List Nat) (reg : SarEndpointRegisters)
    (A sz : Nat) (ts : List (Option (List Nat))) (k : Nat) (t : List Nat)
    (hk : ts.getD k none = some t) :
    ∃ t2, (SarClient.demux
        (readBytes shared (dword (reg.positionRegister + reg.bufferOffset))
          (min (dword (A * reg.activeChannelCount))
            (reg.bufferSize - reg.positionRegister)))
        (readBytes shared reg.bufferOffset
          (dword (A * reg.activeChannelCount) -
            min (dword (A * reg.activeChannelCount))
              (reg.bufferSize - reg.positionRegister)))
        ts ts.length reg.activeChannelCount A sz).getD k none = some t2 ∧
      t2.length = t.length :=
  demux_getD_some _ _ ts ts.length reg.activeChannelCount A sz k t hk

/-- C7: for an endpoint whose snapshotted generation has the active bit
unset, the tick takes the silence path: every non-null target buffer of the
period size is zero-filled, the position register is not written, no signal
fires, and the entire outcome is independent of the `bufferOffset` and
`bufferSize` register fields, which are not consulted for range validation
on this path. -/
theorem tick_inactive_ignores_range (etype : EndpointType)
    (sz A SB : Nat) (shared : List Nat) (reg : SarEndpointRegisters)
    (lg : Nat) (nh : NotificationHandle) (ts : List (Option (List Nat)))
    (h : GENERATION_IS_ACTIVE reg.generation = false) :
    (∀ k t, ts.getD k none = some t → t.length = A →
      (SarClient.tickEndpoint etype sz A SB shared reg lg nh ts).targets.getD k none
        = some (List.replicate A 0)) ∧
    (SarClient.tickEndpoint etype sz A SB shared reg lg nh ts).positionWrite = none ∧
    (SarClient.tickEndpoint etype sz A SB shared reg lg nh ts).signaled = false ∧
    (∀ off2 size2,
      SarClient.tickEndpoint etype sz A SB shared
        { reg with bufferOffset := off2, bufferSize := size2 } lg nh ts
        = SarClient.tickEndpoint etype sz A SB shared reg lg nh ts) := by
  have hred : SarClient.tickEndpoint etype sz A SB shared reg lg nh ts =
      { targets := zeroTargets ts A, positionWrite := none, signaled := false,
        shared := shared } := by
    rw [SarClient.tickEndpoint]
    dsimp only
    rw [if_pos (Or.inl h)]
  refine ⟨?_, ?_, ?_, ?_⟩
  · intro k t hk ht
    rw [hred]
    dsimp only
    rw [zeroTargets_getD, hk, Option.map_some', writeBytes_replicate_eq t A ht]
  · rw [hred]
  · rw [hred]
  · intro off2 size2
    rw [hred, SarClient.tickEndpoint]
    dsimp only
    rw [if_pos (Or.inl h)]

/-- Closed instance of `tick_inactive_ignores_range`: an inactive endpoint
has its non-null target zero-filled and two different buffer range register
settings give the same outcome. -/
theorem tick_inactive_ignores_range_witness :
    GENERATION_IS_ACTIVE (0 : Nat) = false ∧
    (SarClient.tickEndpoint EndpointType.Playback 1 2 9
        (List.replicate 9 0) ⟨0, 1, 5, 7, 3, 1⟩ 0 ⟨none, 0⟩
        [some [4, 4]]).targets.getD 0 none = some (List.replicate 2 0) ∧
    SarClient.tickEndpoint EndpointType.Playback 1 2 9 (List.replicate 9 0)
        ⟨0, 1, 123, 456, 3, 1⟩ 0 ⟨none, 0⟩ [some [4, 4]]
      = SarClient.tickEndpoint EndpointType.Playback 1 2 9 (List.replicate 9 0)
        ⟨0, 1, 5, 7, 3, 1⟩ 0 ⟨none, 0⟩ [some [4, 4]] :=
  ⟨by decide,
    (tick_inactive_ignores_range EndpointType.Playback 1 2 9 (List.replicate 9 0)
      ⟨0, 1, 5, 7, 3, 1⟩ 0 ⟨none, 0⟩ [some [4, 4]] (by decide)).1 0 [4, 4] rfl rfl,
    (tick_inactive_ignores_range EndpointType.Playback 1 2 9 (List.replicate 9 0)
      ⟨0, 1, 5, 7, 3, 1⟩ 0 ⟨none, 0⟩ [some [4, 4]] (by decide)).2.2.2 123 456⟩

/-- C1: when the post-copy re-read of the generation differs in its epoch
number from the pre-copy snapshot or its active bit is no longer set, the
tick zero-fills every non-null target buffer of the endpoint and does not
write the position register, regardless of the data the copy produced. -/
theorem tick_generation_race_discards (etype : EndpointType) (sz A SB : Nat)
    (shared : List Nat) (reg : SarEndpointRegisters) (lg : Nat)
    (nh : NotificationHandle) (ts : List (Option (List Nat)))
    (hrace : GENERATION_IS_ACTIVE lg = false ∨
      GENERATION_NUMBER reg.generation ≠ GENERATION_NUMBER lg) :
    (∀ k t, ts.getD k none = some t → t.length = A →
      (SarClient.tickEndpoint etype sz A SB shared reg lg nh ts).targets.getD k none
        = some (List.replicate A 0)) ∧
    (SarClient.tickEndpoint etype sz A SB shared reg lg nh ts).positionWrite
      = none := by
  rw [SarClient.tickEndpoint]
  dsimp only
  split
  · constructor
    · intro k t hk ht
      rw [zeroTargets_getD, hk, Option.map_some', writeBytes_replicate_eq t A ht]
    · rfl
  · cases etype
    · dsimp only
      constructor
      · intro k t hk ht
        obtain ⟨t2, ht2, hlen⟩ := demux_tick_entry shared reg A sz ts k t hk
        rw [zeroTargets_getD, ht2, Option.map_some',
          writeBytes_replicate_eq t2 A (by rw [hlen, ht])]
      · rfl
    · dsimp only
      constructor
      · intro k t hk ht
        rw [zeroTargets_getD, hk, Option.map_some', writeBytes_replicate_eq t A ht]
      · rfl

/-- Closed instance of `tick_generation_race_discards`: a changed epoch
number at the re-read zeroes the target and leaves the position register
alone. -/
theorem tick_generation_race_discards_witness :
    (GENERATION_IS_ACTIVE (2 ^ 31 + 1) = false ∨
      GENERATION_NUMBER (2 ^ 31) ≠ GENERATION_NUMBER (2 ^ 31 + 1)) ∧
    (SarClient.tickEndpoint EndpointType.Playback 1 2 8 (List.replicate 8 0)
        ⟨2 ^ 31, 1, 0, 4, 0, 0⟩ (2 ^ 31 + 1) ⟨none, 0⟩
        [some [5, 6]]).targets.getD 0 none = some (List.replicate 2 0) ∧
    (SarClient.tickEndpoint EndpointType.Playback 1 2 8 (List.replicate 8 0)
        ⟨2 ^ 31, 1, 0, 4, 0, 0⟩ (2 ^ 31 + 1) ⟨none, 0⟩
        [some [5, 6]]).positionWrite = none :=
  ⟨Or.inr (by decide),
    (tick_generation_race_discards EndpointType.Playback 1 2 8 (List.replicate 8 0)
      ⟨2 ^ 31, 1, 0, 4, 0, 0⟩ (2 ^ 31 + 1) ⟨none, 0⟩ [some [5, 6]]
      (Or.inr (by decide))).1 0 [5, 6] rfl rfl,
    (tick_generation_race_discards EndpointType.Playback 1 2 8 (List.replicate 8 0)
      ⟨2 ^ 31, 1, 0, 4, 0, 0⟩ (2 ^ 31 + 1) ⟨none, 0⟩ [some [5, 6]]
      (Or.inr (by decide))).2⟩

/-- C2: for an endpoint that passes the silence-path checks, the next
position computed by the tick is `(positionRegister + frameChunkSize) %
bufferSize` (exactly that, whenever the 32-bit sum does not overflow), it is
strictly below `bufferSize`, and every value the tick stores into the
position register equals it, hence is strictly below `bufferSize`. -/
theorem tick_position_bounds (etype : EndpointType) (sz A SB : Nat)
    (shared : List Nat) (reg : SarEndpointRegisters) (lg : Nat)
    (nh : NotificationHandle) (ts : List (Option (List Nat)))
    (hactive : GENERATION_IS_ACTIVE reg.generation = true)
    (hsz : reg.bufferSize ≠ 0)
    (hpos : reg.positionRegister ≤ reg.bufferSize)
    (hoff : dword (reg.bufferOffset + reg.bufferSize) ≤ SB) :
    (reg.positionRegister + A * reg.activeChannelCount < 2 ^ 32 →
      nextPositionRegister reg.positionRegister (dword (A * reg.activeChannelCount))
          reg.bufferSize
        = (reg.positionRegister + A * reg.activeChannelCount) % reg.bufferSize) ∧
    nextPositionRegister reg.positionRegister (dword (A * reg.activeChannelCount))
        reg.bufferSize < reg.bufferSize ∧
    (∀ v, (SarClient.tickEndpoint etype sz A SB shared reg lg nh ts).positionWrite
        = some v →
      v = nextPositionRegister reg.positionRegister
            (dword (A * reg.activeChannelCount)) reg.bufferSize ∧
      v < reg.bufferSize) := by
  have hlt : nextPositionRegister reg.positionRegister
      (dword (A * reg.activeChannelCount)) reg.bufferSize < reg.bufferSize := by
    rw [nextPositionRegister]
    exact Nat.mod_lt _ (by omega)
  refine ⟨?_, hlt, ?_⟩
  · intro hov
    rw [nextPositionRegister, dword, dword]
    congr 1
    omega
  · intro v hv
    rw [SarClient.tickEndpoint] at hv
    dsimp only at hv
    rw [if_neg (tick_silence_cond_false reg SB hactive hsz hpos hoff)] at hv
    cases etype
    · dsimp only at hv
      split at hv
      · exact Option.noConfusion hv
      · split at hv
        · split at hv
          · injection hv with hv2
            exact ⟨hv2.symm, hv2 ▸ hlt⟩
          · exact Option.noConfusion hv
        · injection hv with hv2
          exact ⟨hv2.symm, hv2 ▸ hlt⟩
    · dsimp only at hv
      split at hv
      · exact Option.noConfusion hv
      · split at hv
        · split at hv
          · injection hv with hv2
            exact ⟨hv2.symm, hv2 ▸ hlt⟩
          · exact Option.noConfusion hv
        · injection hv with hv2
          exact ⟨hv2.symm, hv2 ▸ hlt⟩

/-- Closed instance of `tick_position_bounds`: the value actually stored by
a tick equals the computed next position and is below the buffer size. -/
theorem tick_position_bounds_witness :
    GENERATION_IS_ACTIVE (2 ^ 31) = true ∧
    ((4 : Nat) = nextPositionRegister 0 (dword (4 * 1)) 16 ∧ (4 : Nat) < 16) :=
  ⟨by decide,
    (tick_position_bounds EndpointType.Playback 1 4 16 (List.replicate 16 0)
      ⟨2 ^ 31, 1, 0, 16, 0, 0⟩ (2 ^ 31) ⟨none, 0⟩ [some [0, 0, 0, 0]]
      (by decide) (by decide) (by decide) (by decide)).2.2 4 (by decide)⟩

/-- C10: when a crossing notification is due this tick but the cached
notification handle is null or was issued for a different generation epoch,
the tick zero-fills every non-null target buffer, does not write the
position register and raises no signal, even though the copy succeeded and
no generation race occurred. -/
theorem tick_stale_handle_silences (etype : EndpointType) (sz A SB : Nat)
    (shared : List Nat) (reg : SarEndpointRegisters) (lg : Nat)
    (nh : NotificationHandle) (ts : List (Option (List Nat)))
    (hactive : GENERATION_IS_ACTIVE reg.generation = true)
    (hsz : reg.bufferSize ≠ 0)
    (hpos : reg.positionRegister ≤ reg.bufferSize)
    (hoff : dword (reg.bufferOffset + reg.bufferSize) ≤ SB)
    (hlg1 : GENERATION_IS_ACTIVE lg = true)
    (hlg2 : GENERATION_NUMBER reg.generation = GENERATION_NUMBER lg)
    (hcross : (1 ≤ reg.notificationCount ∧
        reg.bufferSize / 2 ≤ reg.positionRegister ∧
        nextPositionRegister reg.positionRegister
          (dword (A * reg.activeChannelCount)) reg.bufferSize
          < reg.bufferSize / 2) ∨
      (2 ≤ reg.notificationCount ∧
        reg.bufferSize / 2 ≤ nextPositionRegister reg.positionRegister
          (dword (A * reg.activeChannelCount)) reg.bufferSize ∧
        reg.positionRegister < reg.bufferSize / 2))
    (hbad : nh.handle = none ∨
      GENERATION_NUMBER nh.generation ≠ GENERATION_NUMBER reg.generation) :
    (∀ k t, ts.getD k none = some t → t.length = A →
      (SarClient.tickEndpoint etype sz A SB shared reg lg nh ts).targets.getD k none
        = some (List.replicate A 0)) ∧
    (SarClient.tickEndpoint etype sz A SB shared reg lg nh ts).positionWrite = none ∧
    (SarClient.tickEndpoint etype sz A SB shared reg lg nh ts).signaled = false := by
  have hnrace : ¬(GENERATION_IS_ACTIVE lg = false ∨
      GENERATION_NUMBER reg.generation ≠ GENERATION_NUMBER lg) := by
    rintro (hc | hc)
    · rw [hlg1] at hc
      exact Bool.noConfusion hc
    · exact hc hlg2
  have hnh : ¬(nh.handle.isSome = true ∧
      GENERATION_NUMBER nh.generation = GENERATION_NUMBER reg.generation) := by
    rintro ⟨h1, h2⟩
    rcases hbad with hb | hb
    · rw [hb] at h1
      exact Bool.noConfusion h1
    · exact hb h2
  rw [SarClient.tickEndpoint]
  dsimp only
  rw [if_neg (tick_silence_cond_false reg SB hactive hsz hpos hoff)]
  cases etype
  · dsimp only
    rw [if_neg hnrace, if_pos hcross, if_neg hnh]
    refine ⟨?_, rfl, rfl⟩
    intro k t hk ht
    obtain ⟨t2, ht2, hlen⟩ := demux_tick_entry shared reg A sz ts k t hk
    rw [zeroTargets_getD, ht2, Option.map_some',
      writeBytes_replicate_eq t2 A (by rw [hlen, ht])]
  · dsimp only
    rw [if_neg hnrace, if_pos hcross, if_neg hnh]
    refine ⟨?_, rfl, rfl⟩
    intro k t hk ht
    rw [zeroTargets_getD, hk, Option.map_some', writeBytes_replicate_eq t A ht]

/-- Closed instance of `tick_stale_handle_silences`: an end-of-ring crossing
with a null cached handle silences the endpoint and keeps the position. -/
theorem tick_stale_handle_silences_witness :
    ((⟨none, 0⟩ : NotificationHandle).handle = none) ∧
    (SarClient.tickEndpoint EndpointType.Playback 8 600 1024 []
        ⟨2 ^ 31, 1, 0, 1024, 512, 1⟩ (2 ^ 31) ⟨none, 0⟩
        [some (List.replicate 600 7)]).targets.getD 0 none
      = some (List.replicate 600 0) ∧
    (SarClient.tickEndpoint EndpointType.Playback 8 600 1024 []
        ⟨2 ^ 31, 1, 0, 1024, 512, 1⟩ (2 ^ 31) ⟨none, 0⟩
        [some (List.replicate 600 7)]).positionWrite = none :=
  ⟨rfl,
    (tick_stale_handle_silences EndpointType.Playback 8 600 1024 []
      ⟨2 ^ 31, 1, 0, 1024, 512, 1⟩ (2 ^ 31) ⟨none, 0⟩ [some (List.replicate 600 7)]
      (by decide) (by decide) (by decide) (by decide) (by decide) rfl
      (Or.inl (by decide)) (Or.inl rfl)).1 0 (List.replicate 600 7) rfl
      (by rw [List.length_replicate]),
    (tick_stale_handle_silences EndpointType.Playback 8 600 1024 []
      ⟨2 ^ 31, 1, 0, 1024, 512, 1⟩ (2 ^ 31) ⟨none, 0⟩ [some (List.replicate 600 7)]
      (by decide) (by decide) (by decide) (by decide) (by decide) rfl
      (Or.inl (by decide)) (Or.inl rfl)).2.1⟩

/-- C3: with `bufferSize = 1024`, `positionRegister = 512`,
`frameChunkSize = 600` and `notificationCount = 1`, an active endpoint with
a matching re-read generation and a valid cached handle computes the next
position `88 = (512 + 600) % 1024`; the position moves from the second half
of the ring to the first half, so the end-of-buffer signal fires and the tick
stores `88` into the position register. -/
theorem tick_wrap_scenario (etype : EndpointType) (sz A SB : Nat)
    (shared : List Nat) (g acc off : Nat) (nh : NotificationHandle)
    (ts : List (Option (List Nat)))
    (hactive : GENERATION_IS_ACTIVE g = true)
    (hchunk : dword (A * acc) = 600)
    (hoff : dword (off + 1024) ≤ SB)
    (hh1 : nh.handle.isSome = true)
    (hh2 : GENERATION_NUMBER nh.generation = GENERATION_NUMBER g) :
    nextPositionRegister 512 600 1024 = 88 ∧
    (SarClient.tickEndpoint etype sz A SB shared ⟨g, acc, off, 1024, 512, 1⟩
        g nh ts).positionWrite = some 88 ∧
    (SarClient.tickEndpoint etype sz A SB shared ⟨g, acc, off, 1024, 512, 1⟩
        g nh ts).signaled = true := by
  have h88 : nextPositionRegister 512 600 1024 = 88 := by decide
  have hnext : nextPositionRegister 512 (dword (A * acc)) 1024 = 88 := by
    rw [hchunk, h88]
  have hns : ¬(GENERATION_IS_ACTIVE
      (SarEndpointRegisters.mk g acc off 1024 512 1).generation = false ∨
      (SarEndpointRegisters.mk g acc off 1024 512 1).bufferSize = 0 ∨
      (SarEndpointRegisters.mk g acc off 1024 512 1).positionRegister >
        (SarEndpointRegisters.mk g acc off 1024 512 1).bufferSize ∨
      dword ((SarEndpointRegisters.mk g acc off 1024 512 1).bufferOffset +
        (SarEndpointRegisters.mk g acc off 1024 512 1).bufferSize) > SB) :=
    tick_silence_cond_false ⟨g, acc, off, 1024, 512, 1⟩ SB hactive
      (show (1024 : Nat) ≠ 0 by decide) (show (512 : Nat) ≤ 1024 by decide) hoff
  have hnrace : ¬(GENERATION_IS_ACTIVE g = false ∨
      GENERATION_NUMBER g ≠ GENERATION_NUMBER g) := by
    rintro (hc | hc)
    · rw [hactive] at hc
      exact Bool.noConfusion hc
    · exact hc rfl
  have hcross : (1 ≤ 1 ∧ 1024 / 2 ≤ 512 ∧
      nextPositionRegister 512 (dword (A * acc)) 1024 < 1024 / 2) ∨
      (2 ≤ 1 ∧ 1024 / 2 ≤ nextPositionRegister 512 (dword (A * acc)) 1024 ∧
        512 < 1024 / 2) := by
    rw [hnext]
    exact Or.inl (by decide)
  refine ⟨h88, ?_, ?_⟩ <;>
  · rw [SarClient.tickEndpoint]
    dsimp only
    rw [if_neg hns]
    cases etype <;>
    · dsimp only
      rw [if_neg hnrace, if_pos hcross, if_pos ⟨hh1, hh2⟩]
      try simp [hnext]

/-- Closed instance of `tick_wrap_scenario` at a fully concrete state. -/
theorem tick_wrap_scenario_witness :
    GENERATION_IS_ACTIVE (2 ^ 31) = true ∧
    (SarClient.tickEndpoint EndpointType.Playback 8 600 1024 []
        ⟨2 ^ 31, 1, 0, 1024, 512, 1⟩ (2 ^ 31) ⟨some 5, 2 ^ 31⟩
        []).positionWrite = some 88 ∧
    (SarClient.tickEndpoint EndpointType.Playback 8 600 1024 []
        ⟨2 ^ 31, 1, 0, 1024, 512, 1⟩ (2 ^ 31) ⟨some 5, 2 ^ 31⟩
        []).signaled = true :=
  ⟨by decide,
    (tick_wrap_scenario EndpointType.Playback 8 600 1024 [] (2 ^ 31) 1 0
      ⟨some 5, 2 ^ 31⟩ [] (by decide) (by decide) (by decide) rfl rfl).2.1,
    (tick_wrap_scenario EndpointType.Playback 8 600 1024 [] (2 ^ 31) 1 0
      ⟨some 5, 2 ^ 31⟩ [] (by decide) (by decide) (by decide) rfl rfl).2.2⟩

/-- A byte strictly before the write offset is unchanged, with no bounds
assumption. -/
theorem writeBytes_getElem?_lt (tgt bs : List Nat) (j p : Nat) (hp : p < j) :
    (writeBytes tgt j bs)[p]? = tgt[p]? := by
  by_cases hlen : p < tgt.length
  · rw [writeBytes, List.append_assoc, List.getElem?_append,
      if_pos (by rw [List.length_take]; omega), List.getElem?_take, if_pos hp]
  · have h1 : (writeBytes tgt j bs)[p]? = none :=
      List.getElem?_eq_none (by rw [writeBytes_length]; omega)
    have h2 : tgt[p]? = none := List.getElem?_eq_none (by omega)
    rw [h1, h2]

/-- A byte at or past the end of the written block is unchanged, with no
bounds assumption. -/
theorem writeBytes_getElem?_ge (tgt bs : List Nat) (j p : Nat)
    (hp : j + bs.length ≤ p) :
    (writeBytes tgt j bs)[p]? = tgt[p]? := by
  by_cases hlen : p < tgt.length
  · rw [writeBytes_getElem? tgt bs j p (by omega), if_neg (by omega)]
  · have h1 : (writeBytes tgt j bs)[p]? = none :=
      List.getElem?_eq_none (by rw [writeBytes_length]; omega)
    have h2 : tgt[p]? = none := List.getElem?_eq_none (by omega)
    rw [h1, h2]

/-- Once the write cursor has reached `targetSize` the demux inner loop is
finished, whatever the rest of its state. -/
theorem demuxChanLoop_done (first second : List Nat) (s st c T S : Nat)
    (fuel : Nat) (b : Bool) (pos rem j : Nat) (tgt : List Nat) (hj : T ≤ j) :
    demuxChanLoop first second s st c T S fuel b pos rem j tgt = tgt := by
  cases fuel with
  | zero => rfl
  | succ f =>
    rw [demuxChanLoop]
    dsimp only
    rw [if_neg (by omega)]

/-- Once the read cursor has reached `targetSize` the mux inner loop is
finished, whatever the rest of its state. -/
theorem muxChanLoop_done (tgt : List Nat) (s st c T S : Nat)
    (fuel : Nat) (f sec : List Nat) (b : Bool) (pos rem j : Nat) (hj : T ≤ j) :
    muxChanLoop tgt s st c T S fuel f sec b pos rem j = (f, sec) := by
  cases fuel with
  | zero => rfl
  | succ fl =>
    rw [muxChanLoop]
    dsimp only
    rw [if_neg (by omega)]

/-- One productive iteration of the demux loop in the second segment that
does not exhaust it. -/
theorem demuxChanLoop_step_true_cont (first second : List Nat)
    (s st c T S fl pos rem j : Nat) (tgt : List Nat)
    (h1 : j < T) (h2 : st ≤ rem) (h3 : rem - st ≠ 0) :
    demuxChanLoop first second s st c T S (fl + 1) true pos rem j tgt =
      demuxChanLoop first second s st c T S fl true (pos + st) (rem - st)
        (j + s) (writeBytes tgt j (readBytes second pos s)) := by
  rw [demuxChanLoop]
  dsimp only
  rw [if_pos ⟨h1, h2⟩, if_neg h3]
  rfl

/-- One productive iteration of the demux loop in the second segment that
exhausts it and rewinds the cursor to the start of the second segment. -/
theorem demuxChanLoop_step_true_switch (first second : List Nat)
    (s st c T S fl pos rem j : Nat) (tgt : List Nat)
    (h1 : j < T) (h2 : st ≤ rem) (h3 : rem - st = 0) :
    demuxChanLoop first second s st c T S (fl + 1) true pos rem j tgt =
      demuxChanLoop first second s st c T S fl true c S
        (j + s) (writeBytes tgt j (readBytes second pos s)) := by
  rw [demuxChanLoop]
  dsimp only
  rw [if_pos ⟨h1, h2⟩, if_pos h3]
  rfl

/-- One productive iteration of the demux loop in the first segment that
does not exhaust it. -/
theorem demuxChanLoop_step_false_cont (first second : List Nat)
    (s st c T S fl pos rem j : Nat) (tgt : List Nat)
    (h1 : j < T) (h2 : st ≤ rem) (h3 : rem - st ≠ 0) :
    demuxChanLoop first second s st c T S (fl + 1) false pos rem j tgt =
      demuxChanLoop first second s st c T S fl false (pos + st) (rem - st)
        (j + s) (writeBytes tgt j (readBytes first pos s)) := by
  rw [demuxChanLoop]
  dsimp only
  rw [if_pos ⟨h1, h2⟩, if_neg h3]
  rfl

/-- One productive iteration of the demux loop in the first segment that
exhausts it and moves the cursor to the start of the second segment. -/
theorem demuxChanLoop_step_false_switch (first second : List Nat)
    (s st c T S fl pos rem j : Nat) (tgt : List Nat)
    (h1 : j < T) (h2 : st ≤ rem) (h3 : rem - st = 0) :
    demuxChanLoop first second s st c T S (fl + 1) false pos rem j tgt =
      demuxChanLoop first second s st c T S fl true c S
        (j + s) (writeBytes tgt j (readBytes first pos s)) := by
  rw [demuxChanLoop]
  dsimp only
  rw [if_pos ⟨h1, h2⟩, if_pos h3]
  rfl

/-- One productive iteration of the mux loop in the second segment that does
not exhaust it. -/
theorem muxChanLoop_step_true_cont (tgt : List Nat)
    (s st c T S fl pos rem j : Nat) (f sec : List Nat)
    (h1 : j < T) (h2 : st ≤ rem) (h3 : rem - st ≠ 0) :
    muxChanLoop tgt s st c T S (fl + 1) f sec true pos rem j =
      muxChanLoop tgt s st c T S fl f
        (writeBytes sec pos (readBytes tgt j s)) true (pos + st) (rem - st)
        (j + s) := by
  rw [muxChanLoop]
  dsimp only
  rw [if_pos ⟨h1, h2⟩, if_neg h3]
  rfl

/-- One productive iteration of the mux loop in the second segment that
exhausts it and rewinds the cursor to the start of the second segment. -/
theorem muxChanLoop_step_true_switch (tgt : List Nat)
    (s st c T S fl pos rem j : Nat) (f sec : List Nat)
    (h1 : j < T) (h2 : st ≤ rem) (h3 : rem - st = 0) :
    muxChanLoop tgt s st c T S (fl + 1) f sec true pos rem j =
      muxChanLoop tgt s st c T S fl f
        (writeBytes sec pos (readBytes tgt j s)) true c S (j + s) := by
  rw [muxChanLoop]
  dsimp only
  rw [if_pos ⟨h1, h2⟩, if_pos h3]
  rfl

/-- One productive iteration of the mux loop in the first segment that does
not exhaust it. -/
theorem muxChanLoop_step_false_cont (tgt : List Nat)
    (s st c T S fl pos rem j : Nat) (f sec : List Nat)
    (h1 : j < T) (h2 : st ≤ rem) (h3 : rem - st ≠ 0) :
    muxChanLoop tgt s st c T S (fl + 1) f sec false pos rem j =
      muxChanLoop tgt s st c T S fl
        (writeBytes f pos (readBytes tgt j s)) sec false (pos + st) (rem - st)
        (j + s) := by
  rw [muxChanLoop]
  dsimp only
  rw [if_pos ⟨h1, h2⟩, if_neg h3]
  rfl

/-- One productive iteration of the mux loop in the first segment that
exhausts it and moves the cursor to the start of the second segment. -/
theorem muxChanLoop_step_false_switch (tgt : List Nat)
    (s st c T S fl pos rem j : Nat) (f sec : List Nat)
    (h1 : j < T) (h2 : st ≤ rem) (h3 : rem - st = 0) :
    muxChanLoop tgt s st c T S (fl + 1) f sec false pos rem j =
      muxChanLoop tgt s st c T S fl
        (writeBytes f pos (readBytes tgt j s)) sec true c S (j + s) := by
  rw [muxChanLoop]
  dsimp only
  rw [if_pos ⟨h1, h2⟩, if_pos h3]
  rfl

/-- Second-segment phase of the demux inner loop: positioned at frame `k` of
`n` with the cursor in the second segment, the loop computes the frame fold
of the remaining frames.  `a` is the number of whole frames in the first
segment and the capacity bound keeps the one legitimate rewind of the
second segment at the very last frame. -/
theorem demuxChanLoop_phase2 (first second : List Nat)
    (s st chanOff n a : Nat) (hs : 0 < s) (hst : 0 < st)
    (hcap : n * st ≤ a * st + second.length) :
    ∀ m k fuel pos rem tgt, k + m = n → a ≤ k → m ≤ fuel →
      pos = chanOff + (k - a) * st → rem = second.length - (k - a) * st →
      demuxChanLoop first second s st chanOff (n * s) second.length fuel true
          pos rem (k * s) tgt
        = demuxFrames first second s st a chanOff (List.range' k m) tgt := by
  intro m
  induction m with
  | zero =>
    intro k fuel pos rem tgt hkm hak hfuel hpos hrem
    rw [demuxChanLoop_done first second s st chanOff (n * s) second.length fuel
      true pos rem (k * s) tgt (Nat.mul_le_mul_right s (by omega))]
    rfl
  | succ m ih =>
    intro k fuel pos rem tgt hkm hak hfuel hpos hrem
    have hkn : k < n := by omega
    cases fuel with
    | zero => omega
    | succ f =>
      have hjT : k * s < n * s := (Nat.mul_lt_mul_right hs).2 hkn
      have hsub : (n - a) * st ≤ second.length := by
        rw [Nat.sub_mul]
        omega
      have hka1 : (k - a + 1) * st ≤ (n - a) * st :=
        Nat.mul_le_mul_right st (by omega)
      rw [Nat.add_mul, Nat.one_mul] at hka1
      have hrem2 : st ≤ rem := by
        rw [hrem]
        omega
      have hRHS : demuxFrames first second s st a chanOff
            (List.range' k (m + 1)) tgt
          = demuxFrames first second s st a chanOff (List.range' (k + 1) m)
              (writeBytes tgt (k * s)
                (readBytes second (chanOff + (k - a) * st) s)) := by
        rw [demuxFrames, demuxFrames, List.range'_succ, List.foldl_cons]
        rw [if_neg (show ¬ k < a by omega)]
      rw [hRHS]
      by_cases h0 : rem - st = 0
      · have hS2 : second.length ≤ (k - a) * st + st := by
          rw [hrem] at h0 hrem2
          omega
        have hkn1 : k + 1 = n := by
          have h6 : n - a ≤ k - a + 1 := by
            apply Nat.le_of_mul_le_mul_right _ hst
            rw [Nat.add_mul, Nat.one_mul]
            omega
          omega
        have hm0 : m = 0 := by omega
        subst hm0
        rw [demuxChanLoop_step_true_switch first second s st chanOff (n * s)
          second.length f pos rem (k * s) tgt hjT hrem2 h0]
        rw [demuxChanLoop_done first second s st chanOff (n * s) second.length f
          true chanOff second.length (k * s + s) _
          (by rw [show n = k + 1 from hkn1.symm, Nat.add_mul, Nat.one_mul])]
        rw [hpos]
        rfl
      · rw [demuxChanLoop_step_true_cont first second s st chanOff (n * s)
          second.length f pos rem (k * s) tgt hjT hrem2 h0]
        have harg1 : pos + st = chanOff + (k + 1 - a) * st := by
          rw [hpos, show k + 1 - a = (k - a) + 1 from by omega,
            Nat.add_mul, Nat.one_mul]
          omega
        have harg2 : rem - st = second.length - (k + 1 - a) * st := by
          rw [hrem, show k + 1 - a = (k - a) + 1 from by omega,
            Nat.add_mul, Nat.one_mul]
          omega
        have harg3 : k * s + s = (k + 1) * s := by
          rw [Nat.add_mul, Nat.one_mul]
        rw [harg1, harg2, harg3, hpos]
        exact ih (k + 1) f _ _ _ (by omega) (by omega) (by omega) rfl rfl

/-- First-segment phase of the demux inner loop: positioned at frame `k < a`
with the cursor in the first segment, the loop computes the frame fold of
the remaining frames, switching to the second segment when the first is
exhausted. -/
theorem demuxChanLoop_phase1 (first second : List Nat)
    (s st chanOff n a : Nat) (hs : 0 < s) (hst : 0 < st)
    (hF : first.length = a * st)
    (hcap : n * st ≤ a * st + second.length) :
    ∀ m k fuel pos rem tgt, k + m = n → k < a → m ≤ fuel →
      pos = chanOff + k * st → rem = first.length - k * st →
      demuxChanLoop first second s st chanOff (n * s) second.length fuel false
          pos rem (k * s) tgt
        = demuxFrames first second s st a chanOff (List.range' k m) tgt := by
  intro m
  induction m with
  | zero =>
    intro k fuel pos rem tgt hkm hka hfuel hpos hrem
    rw [demuxChanLoop_done first second s st chanOff (n * s) second.length fuel
      false pos rem (k * s) tgt (Nat.mul_le_mul_right s (by omega))]
    rfl
  | succ m ih =>
    intro k fuel pos rem tgt hkm hka hfuel hpos hrem
    have hkn : k < n := by omega
    cases fuel with
    | zero => omega
    | succ f =>
      have hjT : k * s < n * s := (Nat.mul_lt_mul_right hs).2 hkn
      have hk1 : (k + 1) * st ≤ a * st := Nat.mul_le_mul_right st (by omega)
      rw [Nat.add_mul, Nat.one_mul] at hk1
      have hrem2 : st ≤ rem := by
        rw [hrem, hF]
        omega
      have hRHS : demuxFrames first second s st a chanOff
            (List.range' k (m + 1)) tgt
          = demuxFrames first second s st a chanOff (List.range' (k + 1) m)
              (writeBytes tgt (k * s)
                (readBytes first (chanOff + k * st) s)) := by
        rw [demuxFrames, demuxFrames, List.range'_succ, List.foldl_cons]
        rw [if_pos hka]
      rw [hRHS]
      by_cases h0 : rem - st = 0
      · have ha : a = k + 1 := by
          have h5 : a * st ≤ (k + 1) * st := by
            rw [Nat.add_mul, Nat.one_mul]
            rw [hrem, hF] at h0
            omega
          have h6 : a ≤ k + 1 := Nat.le_of_mul_le_mul_right h5 hst
          omega
        rw [demuxChanLoop_step_false_switch first second s st chanOff (n * s)
          second.length f pos rem (k * s) tgt hjT hrem2 h0]
        rw [hpos, show k * s + s = (k + 1) * s from by rw [Nat.add_mul, Nat.one_mul]]
        exact demuxChanLoop_phase2 first second s st chanOff n a hs hst hcap
          m (k + 1) f chanOff second.length _ (by omega) (by omega) (by omega)
          (by rw [show k + 1 - a = 0 from by omega, Nat.zero_mul]
              omega)
          (by rw [show k + 1 - a = 0 from by omega, Nat.zero_mul]
              omega)
      · have hk1a : k + 1 < a := by
          rcases Nat.lt_or_ge (k + 1) a with h | h
          · exact h
          · exfalso
            apply h0
            have ha : a = k + 1 := by omega
            rw [hrem, hF, ha, Nat.add_mul, Nat.one_mul]
            omega
        rw [demuxChanLoop_step_false_cont first second s st chanOff (n * s)
          second.length f pos rem (k * s) tgt hjT hrem2 h0]
        have harg1 : pos + st = chanOff + (k + 1) * st := by
          rw [hpos, Nat.add_mul, Nat.one_mul]
          omega
        have harg2 : rem - st = first.length - (k + 1) * st := by
          rw [hrem, Nat.add_mul, Nat.one_mul]
          omega
        have harg3 : k * s + s = (k + 1) * s := by
          rw [Nat.add_mul, Nat.one_mul]
        rw [harg1, harg2, harg3, hpos]
        exact ih (k + 1) f _ _ _ (by omega) hk1a (by omega) rfl rfl

/-- The demux inner loop, as started by `demuxCopyStep`, computes the frame
fold over all `n` frames whenever the first segment is a nonempty whole
number of frames and the two segments can hold the `n` frames. -/
theorem demuxChanLoop_frames (first second : List Nat)
    (s st chanOff n a : Nat) (hs : 0 < s) (hst : 0 < st)
    (hF : first.length = a * st)
    (hcap : n * st ≤ a * st + second.length)
    (ha0 : n ≠ 0 → a ≠ 0) (fuel : Nat) (hfuel : n ≤ fuel) (tgt : List Nat) :
    demuxChanLoop first second s st chanOff (n * s) second.length fuel false
        chanOff first.length 0 tgt
      = demuxFrames first second s st a chanOff (List.range' 0 n) tgt := by
  rcases Nat.eq_zero_or_pos n with hn | hn
  · subst hn
    rw [demuxChanLoop_done first second s st chanOff (0 * s) second.length fuel
      false chanOff first.length 0 tgt (by omega)]
    rfl
  · have ha : 0 < a := Nat.pos_of_ne_zero (ha0 (by omega))
    have h := demuxChanLoop_phase1 first second s st chanOff n a hs hst hF hcap
      n 0 fuel chanOff first.length tgt (by omega) ha (by omega)
      (by rw [Nat.zero_mul]
          omega)
      (by rw [Nat.zero_mul]
          omega)
    rw [Nat.zero_mul] at h
    exact h

/-- Second-segment phase of the mux inner loop: the mirror image of
`demuxChanLoop_phase2`. -/
theorem muxChanLoop_phase2 (tgt : List Nat)
    (s st chanOff n a S0 : Nat) (hs : 0 < s) (hst : 0 < st)
    (hcap : n * st ≤ a * st + S0) :
    ∀ m k fuel pos rem f sec, k + m = n → a ≤ k → m ≤ fuel →
      pos = chanOff + (k - a) * st → rem = S0 - (k - a) * st →
      muxChanLoop tgt s st chanOff (n * s) S0 fuel f sec true pos rem (k * s)
        = muxFrames tgt s st a chanOff (List.range' k m) (f, sec) := by
  intro m
  induction m with
  | zero =>
    intro k fuel pos rem f sec hkm hak hfuel hpos hrem
    rw [muxChanLoop_done tgt s st chanOff (n * s) S0 fuel f sec true pos rem
      (k * s) (Nat.mul_le_mul_right s (by omega))]
    rfl
  | succ m ih =>
    intro k fuel pos rem f sec hkm hak hfuel hpos hrem
    have hkn : k < n := by omega
    cases fuel with
    | zero => omega
    | succ fl =>
      have hjT : k * s < n * s := (Nat.mul_lt_mul_right hs).2 hkn
      have hsub : (n - a) * st ≤ S0 := by
        rw [Nat.sub_mul]
        omega
      have hka1 : (k - a + 1) * st ≤ (n - a) * st :=
        Nat.mul_le_mul_right st (by omega)
      rw [Nat.add_mul, Nat.one_mul] at hka1
      have hrem2 : st ≤ rem := by
        rw [hrem]
        omega
      have hRHS : muxFrames tgt s st a chanOff (List.range' k (m + 1)) (f, sec)
          = muxFrames tgt s st a chanOff (List.range' (k + 1) m)
              (f, writeBytes sec (chanOff + (k - a) * st)
                (readBytes tgt (k * s) s)) := by
        rw [muxFrames, muxFrames, List.range'_succ, List.foldl_cons]
        rw [if_neg (show ¬ k < a by omega)]
      rw [hRHS]
      by_cases h0 : rem - st = 0
      · have hkn1 : k + 1 = n := by
          have h6 : n - a ≤ k - a + 1 := by
            apply Nat.le_of_mul_le_mul_right _ hst
            rw [Nat.add_mul, Nat.one_mul]
            rw [hrem] at h0 hrem2
            omega
          omega
        have hm0 : m = 0 := by omega
        subst hm0
        rw [muxChanLoop_step_true_switch tgt s st chanOff (n * s) S0 fl pos rem
          (k * s) f sec hjT hrem2 h0]
        rw [muxChanLoop_done tgt s st chanOff (n * s) S0 fl f _ true chanOff S0
          (k * s + s) (by rw [show n = k + 1 from hkn1.symm, Nat.add_mul,
            Nat.one_mul])]
        rw [hpos]
        rfl
      · rw [muxChanLoop_step_true_cont tgt s st chanOff (n * s) S0 fl pos rem
          (k * s) f sec hjT hrem2 h0]
        have harg1 : pos + st = chanOff + (k + 1 - a) * st := by
          rw [hpos, show k + 1 - a = (k - a) + 1 from by omega,
            Nat.add_mul, Nat.one_mul]
          omega
        have harg2 : rem - st = S0 - (k + 1 - a) * st := by
          rw [hrem, show k + 1 - a = (k - a) + 1 from by omega,
            Nat.add_mul, Nat.one_mul]
          omega
        have harg3 : k * s + s = (k + 1) * s := by
          rw [Nat.add_mul, Nat.one_mul]
        rw [harg1, harg2, harg3, hpos]
        exact ih (k + 1) fl _ _ f _ (by omega) (by omega) (by omega) rfl rfl

/-- First-segment phase of the mux inner loop: the mirror image of
`demuxChanLoop_phase1`.  `F0` is the length of the first segment at entry,
which every iteration preserves. -/
theorem muxChanLoop_phase1 (tgt : List Nat)
    (s st chanOff n a S0 F0 : Nat) (hs : 0 < s) (hst : 0 < st)
    (hF : F0 = a * st) (hcap : n * st ≤ a * st + S0) :
    ∀ m k fuel pos rem f sec, k + m = n → k < a → m ≤ fuel →
      pos = chanOff + k * st → rem = F0 - k * st →
      muxChanLoop tgt s st chanOff (n * s) S0 fuel f sec false pos rem (k * s)
        = muxFrames tgt s st a chanOff (List.range' k m) (f, sec) := by
  intro m
  induction m with
  | zero =>
    intro k fuel pos rem f sec hkm hka hfuel hpos hrem
    rw [muxChanLoop_done tgt s st chanOff (n * s) S0 fuel f sec false pos rem
      (k * s) (Nat.mul_le_mul_right s (by omega))]
    rfl
  | succ m ih =>
    intro k fuel pos rem f sec hkm hka hfuel hpos hrem
    have hkn : k < n := by omega
    cases fuel with
    | zero => omega
    | succ fl =>
      have hjT : k * s < n * s := (Nat.mul_lt_mul_right hs).2 hkn
      have hk1 : (k + 1) * st ≤ a * st := Nat.mul_le_mul_right st (by omega)
      rw [Nat.add_mul, Nat.one_mul] at hk1
      have hrem2 : st ≤ rem := by
        rw [hrem, hF]
        omega
      have hRHS : muxFrames tgt s st a chanOff (List.range' k (m + 1)) (f, sec)
          = muxFrames tgt s st a chanOff (List.range' (k + 1) m)
              (writeBytes f (chanOff + k * st) (readBytes tgt (k * s) s),
                sec) := by
        rw [muxFrames, muxFrames, List.range'_succ, List.foldl_cons]
        rw [if_pos hka]
      rw [hRHS]
      by_cases h0 : rem - st = 0
      · have ha : a = k + 1 := by
          have h5 : a * st ≤ (k + 1) * st := by
            rw [Nat.add_mul, Nat.one_mul]
            rw [hrem, hF] at h0
            omega
          have h6 : a ≤ k + 1 := Nat.le_of_mul_le_mul_right h5 hst
          omega
        rw [muxChanLoop_step_false_switch tgt s st chanOff (n * s) S0 fl pos
          rem (k * s) f sec hjT hrem2 h0]
        rw [hpos, show k * s + s = (k + 1) * s from by rw [Nat.add_mul, Nat.one_mul]]
        exact muxChanLoop_phase2 tgt s st chanOff n a S0 hs hst hcap
          m (k + 1) fl chanOff S0 _ sec (by omega) (by omega) (by omega)
          (by rw [show k + 1 - a = 0 from by omega, Nat.zero_mul]
              omega)
          (by rw [show k + 1 - a = 0 from by omega, Nat.zero_mul]
              omega)
      · have hk1a : k + 1 < a := by
          rcases Nat.lt_or_ge (k + 1) a with h | h
          · exact h
          · exfalso
            apply h0
            have ha : a = k + 1 := by omega
            rw [hrem, hF, ha, Nat.add_mul, Nat.one_mul]
            omega
        rw [muxChanLoop_step_false_cont tgt s st chanOff (n * s) S0 fl pos rem
          (k * s) f sec hjT hrem2 h0]
        have harg1 : pos + st = chanOff + (k + 1) * st := by
          rw [hpos, Nat.add_mul, Nat.one_mul]
          omega
        have harg2 : rem - st = F0 - (k + 1) * st := by
          rw [hrem, Nat.add_mul, Nat.one_mul]
          omega
        have harg3 : k * s + s = (k + 1) * s := by
          rw [Nat.add_mul, Nat.one_mul]
        rw [harg1, harg2, harg3, hpos]
        exact ih (k + 1) fl _ _ _ sec (by omega) hk1a (by omega) rfl rfl

/-- The mux inner loop, as started by `muxChanStep`, computes the frame fold
over all `n` frames whenever the first segment is a nonempty whole number of
frames and the two segments can hold the `n` frames. -/
theorem muxChanLoop_frames (tgt : List Nat)
    (s st chanOff n a : Nat) (f sec : List Nat) (hs : 0 < s) (hst : 0 < st)
    (hF : f.length = a * st)
    (hcap : n * st ≤ a * st + sec.length)
    (ha0 : n ≠ 0 → a ≠ 0) (fuel : Nat) (hfuel : n ≤ fuel) :
    muxChanLoop tgt s st chanOff (n * s) sec.length fuel f sec false chanOff
        f.length 0
      = muxFrames tgt s st a chanOff (List.range' 0 n) (f, sec) := by
  rcases Nat.eq_zero_or_pos n with hn | hn
  · subst hn
    rw [muxChanLoop_done tgt s st chanOff (0 * s) sec.length fuel f sec false
      chanOff f.length 0 (by omega)]
    rfl
  · have ha : 0 < a := Nat.pos_of_ne_zero (ha0 (by omega))
    have h := muxChanLoop_phase1 tgt s st chanOff n a sec.length f.length hs
      hst hF hcap n 0 fuel chanOff f.length f sec (by omega) ha (by omega)
      (by rw [Nat.zero_mul]
          omega)
      (by rw [Nat.zero_mul]
          omega)
    rw [Nat.zero_mul] at h
    exact h

/-- Unfolding of one frame of the mux frame fold. -/
theorem muxFrames_cons (tgt : List Nat) (s st a chanOff k : Nat)
    (frames : List Nat) (fs : List Nat × List Nat) :
    muxFrames tgt s st a chanOff (k :: frames) fs =
      muxFrames tgt s st a chanOff frames
        (if k < a then
          (writeBytes fs.1 (chanOff + k * st) (readBytes tgt (k * s) s), fs.2)
        else
          (fs.1, writeBytes fs.2 (chanOff + (k - a) * st)
            (readBytes tgt (k * s) s))) := by
  rw [muxFrames, muxFrames, List.foldl_cons]

/-- The mux frame fold preserves the lengths of both ring segments. -/
theorem muxFrames_length (tgt : List Nat) (s st a chanOff : Nat)
    (frames : List Nat) :
    ∀ fs : List Nat × List Nat,
      (muxFrames tgt s st a chanOff frames fs).1.length = fs.1.length ∧
      (muxFrames tgt s st a chanOff frames fs).2.length = fs.2.length := by
  induction frames with
  | nil => intro fs; exact ⟨rfl, rfl⟩
  | cons k frames ih =>
    intro fs
    rw [muxFrames_cons]
    by_cases hk : k < a
    · rw [if_pos hk]
      refine ⟨(ih _).1.trans ?_, (ih _).2.trans ?_⟩
      · exact writeBytes_length _ _ _
      · rfl
    · rw [if_neg hk]
      refine ⟨(ih _).1.trans ?_, (ih _).2.trans ?_⟩
      · rfl
      · exact writeBytes_length _ _ _

/-- Frames at or past index `K` leave the first segment untouched below the
position of frame `K`. -/
theorem muxFrames_fst_pres (tgt : List Nat) (s st a chanOff : Nat)
    (frames : List Nat) :
    ∀ (K : Nat) (fs : List Nat × List Nat) (p : Nat),
      (∀ k ∈ frames, K ≤ k) → p < chanOff + K * st →
      (muxFrames tgt s st a chanOff frames fs).1[p]? = fs.1[p]? := by
  induction frames with
  | nil => intro K fs p hf hp; rfl
  | cons k frames ih =>
    intro K fs p hf hp
    rw [muxFrames_cons]
    have hk := hf k (List.mem_cons_self k frames)
    rw [ih K _ p (fun k' hk' => hf k' (List.mem_cons_of_mem _ hk')) hp]
    by_cases hka : k < a
    · rw [if_pos hka]
      exact writeBytes_getElem?_lt _ _ _ _ (by
        have h2 : K * st ≤ k * st := Nat.mul_le_mul_right st hk
        omega)
    · rw [if_neg hka]

/-- Frames at or past index `K ≥ a` leave the second segment untouched below
the position of frame `K`. -/
theorem muxFrames_snd_pres (tgt : List Nat) (s st a chanOff : Nat)
    (frames : List Nat) :
    ∀ (K : Nat) (fs : List Nat × List Nat) (p : Nat),
      (∀ k ∈ frames, K ≤ k) → p < chanOff + (K - a) * st →
      (muxFrames tgt s st a chanOff frames fs).2[p]? = fs.2[p]? := by
  induction frames with
  | nil => intro K fs p hf hp; rfl
  | cons k frames ih =>
    intro K fs p hf hp
    rw [muxFrames_cons]
    have hk := hf k (List.mem_cons_self k frames)
    rw [ih K _ p (fun k' hk' => hf k' (List.mem_cons_of_mem _ hk')) hp]
    by_cases hka : k < a
    · rw [if_pos hka]
    · rw [if_neg hka]
      exact writeBytes_getElem?_lt _ _ _ _ (by
        have h2 : (K - a) * st ≤ (k - a) * st := Nat.mul_le_mul_right st (by omega)
        omega)

/-- The mux inner loop for a channel whose window inside each frame, taken
modulo the stride, lies at `[c, c + s)`, never touches a byte whose offset
modulo the stride lies outside that window. -/
theorem muxChanLoop_pres_mod (tgt : List Nat) (s st c T S0 : Nat)
    (hs : 0 < s) (hc : c + s ≤ st) (p : Nat)
    (hp : p % st < c ∨ c + s ≤ p % st) :
    ∀ fuel (f sec : List Nat) (b : Bool) (pos rem j : Nat), pos % st = c →
      (muxChanLoop tgt s st c T S0 fuel f sec b pos rem j).1[p]? = f[p]? ∧
      (muxChanLoop tgt s st c T S0 fuel f sec b pos rem j).2[p]? = sec[p]? := by
  intro fuel
  induction fuel with
  | zero => intro f sec b pos rem j hpos; exact ⟨rfl, rfl⟩
  | succ fl ih =>
    intro f sec b pos rem j hpos
    rw [muxChanLoop]
    dsimp only
    split
    · have hb0 : (readBytes tgt j s).length ≤ s := by
        rw [readBytes_length]
        omega
      have huntouched : ∀ x : List Nat,
          (writeBytes x pos (readBytes tgt j s))[p]? = x[p]? := by
        intro x
        rcases Nat.lt_or_ge p pos with h | h
        · exact writeBytes_getElem?_lt _ _ _ _ h
        · rcases Nat.lt_or_ge p (pos + (readBytes tgt j s).length) with h2 | h2
          · exfalso
            have hdm := Nat.div_add_mod pos st
            have hq : p = c + (p - pos) + st * (pos / st) := by omega
            have hmod : p % st = c + (p - pos) := by
              conv_lhs => rw [hq]
              rw [Nat.add_mul_mod_self_left]
              exact Nat.mod_eq_of_lt (show c + (p - pos) < st by omega)
            omega
          · exact writeBytes_getElem?_ge _ _ _ _ h2
      have hcmod : c % st = c := Nat.mod_eq_of_lt (by omega)
      split
      · constructor
        · rw [(ih _ _ true c S0 (j + s) hcmod).1]
          cases b
          · exact huntouched f
          · rfl
        · rw [(ih _ _ true c S0 (j + s) hcmod).2]
          cases b
          · rfl
          · exact huntouched sec
      · constructor
        · rw [(ih _ _ b (pos + st) (rem - st) (j + s)
            (by rw [Nat.add_mod_right, hpos])).1]
          cases b
          · exact huntouched f
          · rfl
        · rw [(ih _ _ b (pos + st) (rem - st) (j + s)
            (by rw [Nat.add_mod_right, hpos])).2]
          cases b
          · rfl
          · exact huntouched sec
    · exact ⟨rfl, rfl⟩

/-- After the frame fold over frames `K ≤ q < K + M`, byte `b` of the slot
of frame `q < a` in the first segment holds byte `q * s + b` of the channel
buffer. -/
theorem muxFrames_fst_val (tgt : List Nat) (s st a chanOff n : Nat)
    (hs : 0 < s) (hco : chanOff + s ≤ st) (hT : tgt.length = n * s) :
    ∀ M K (fs : List Nat × List Nat) (q b : Nat), K ≤ q → q < K + M →
      K + M ≤ n → q < a → b < s → fs.1.length = a * st →
      (muxFrames tgt s st a chanOff (List.range' K M) fs).1[chanOff + q * st + b]?
        = tgt[q * s + b]? := by
  intro M
  induction M with
  | zero => intro K fs q b h1 h2 h3 h4 h5 h6; omega
  | succ M ih =>
    intro K fs q b hKq hqKM hKMn hqa hbs hflen
    rw [List.range'_succ, muxFrames_cons]
    rcases Nat.eq_or_lt_of_le hKq with heq | hlt
    · obtain rfl := heq
      rw [if_pos (show K < a by omega)]
      rw [muxFrames_fst_pres tgt s st a chanOff _ (K + 1) _ _
        (fun k' hk' => (List.mem_range'_1.1 hk').1)
        (by rw [Nat.add_mul, Nat.one_mul]; omega)]
      have hread : (readBytes tgt (K * s) s).length = s := by
        rw [readBytes_length]
        have h7 : (K + 1) * s ≤ n * s := Nat.mul_le_mul_right s (by omega)
        rw [Nat.add_mul, Nat.one_mul] at h7
        omega
      have hbound : (K + 1) * st ≤ a * st := Nat.mul_le_mul_right st (by omega)
      rw [Nat.add_mul, Nat.one_mul] at hbound
      rw [writeBytes_getElem? _ _ _ _ (by rw [hread, hflen]; omega),
        if_pos (by rw [hread]; omega),
        show chanOff + K * st + b - (chanOff + K * st) = b from by omega,
        readBytes_getElem?, if_pos hbs]
    · by_cases hka : K < a
      · rw [if_pos hka]
        refine ih (K + 1) _ q b hlt (by omega) (by omega) hqa hbs ?_
        show (writeBytes fs.1 (chanOff + K * st)
          (readBytes tgt (K * s) s)).length = a * st
        rw [writeBytes_length]
        exact hflen
      · rw [if_neg hka]
        exact ih (K + 1) _ q b hlt (by omega) (by omega) hqa hbs hflen

/-- After the frame fold over frames `K ≤ q < K + M`, byte `b` of the slot
of frame `q ≥ a` in the second segment holds byte `q * s + b` of the channel
buffer. -/
theorem muxFrames_snd_val (tgt : List Nat) (s st a chanOff n S0 : Nat)
    (hs : 0 < s) (hco : chanOff + s ≤ st) (hT : tgt.length = n * s)
    (hS0 : (n - a) * st ≤ S0) :
    ∀ M K (fs : List Nat × List Nat) (q b : Nat), K ≤ q → q < K + M →
      K + M ≤ n → a ≤ q → b < s → fs.2.length = S0 →
      (muxFrames tgt s st a chanOff (List.range' K M) fs).2[chanOff +
          (q - a) * st + b]?
        = tgt[q * s + b]? := by
  intro M
  induction M with
  | zero => intro K fs q b h1 h2 h3 h4 h5 h6; omega
  | succ M ih =>
    intro K fs q b hKq hqKM hKMn hqa hbs hslen
    rw [List.range'_succ, muxFrames_cons]
    rcases Nat.eq_or_lt_of_le hKq with heq | hlt
    · obtain rfl := heq
      rw [if_neg (show ¬ K < a by omega)]
      rw [muxFrames_snd_pres tgt s st a chanOff _ (K + 1) _ _
        (fun k' hk' => (List.mem_range'_1.1 hk').1)
        (by rw [show K + 1 - a = (K - a) + 1 from by omega,
          Nat.add_mul, Nat.one_mul]; omega)]
      have hread : (readBytes tgt (K * s) s).length = s := by
        rw [readBytes_length]
        have h7 : (K + 1) * s ≤ n * s := Nat.mul_le_mul_right s (by omega)
        rw [Nat.add_mul, Nat.one_mul] at h7
        omega
      have hbound : (K - a + 1) * st ≤ (n - a) * st :=
        Nat.mul_le_mul_right st (by omega)
      rw [Nat.add_mul, Nat.one_mul] at hbound
      rw [writeBytes_getElem? _ _ _ _ (by rw [hread, hslen]; omega),
        if_pos (by rw [hread]; omega),
        show chanOff + (K - a) * st + b - (chanOff + (K - a) * st) = b from
          by omega,
        readBytes_getElem?, if_pos hbs]
    · by_cases hka : K < a
      · rw [if_pos hka]
        exact ih (K + 1) _ q b hlt (by omega) (by omega) hqa hbs hslen
      · rw [if_neg hka]
        refine ih (K + 1) _ q b hlt (by omega) (by omega) hqa hbs ?_
        show (writeBytes fs.2 (chanOff + (K - a) * st)
          (readBytes tgt (K * s) s)).length = S0
        rw [writeBytes_length]
        exact hslen

/-- One mux channel step preserves the lengths of both ring segments. -/
theorem muxChanStep_length (targets : List (Option (List Nat)))
    (s st T : Nat) (fs : List Nat × List Nat) (i : Nat) :
    (muxChanStep targets s st T fs i).1.length = fs.1.length ∧
    (muxChanStep targets s st T fs i).2.length = fs.2.length := by
  rw [muxChanStep]
  cases h : targets.getD i none with
  | none => exact ⟨rfl, rfl⟩
  | some tgt =>
    exact ⟨(muxChanLoop_length tgt s st (s * i) T fs.2.length T fs.1 fs.2
        false (s * i) fs.1.length 0).1,
      (muxChanLoop_length tgt s st (s * i) T fs.2.length T fs.1 fs.2
        false (s * i) fs.1.length 0).2⟩

/-- One mux channel step for channel `i` never touches a byte whose offset
modulo the stride lies outside the window of channel `i`. -/
theorem muxChanStep_pres (targets : List (Option (List Nat)))
    (s st T : Nat) (hs : 0 < s) (i p : Nat)
    (hi : s * i + s ≤ st)
    (hp : p % st < s * i ∨ s * i + s ≤ p % st)
    (fs : List Nat × List Nat) :
    (muxChanStep targets s st T fs i).1[p]? = fs.1[p]? ∧
    (muxChanStep targets s st T fs i).2[p]? = fs.2[p]? := by
  rw [muxChanStep]
  cases h : targets.getD i none with
  | none => exact ⟨rfl, rfl⟩
  | some tgt =>
    exact muxChanLoop_pres_mod tgt s st (s * i) T fs.2.length hs hi p hp T
      fs.1 fs.2 false (s * i) fs.1.length 0 (Nat.mod_eq_of_lt (by omega))

/-- A fold of mux channel steps preserves the lengths of both segments. -/
theorem muxFold_length (targets : List (Option (List Nat)))
    (s st T : Nat) (L : List Nat) :
    ∀ fs : List Nat × List Nat,
      ((L.foldl (muxChanStep targets s st T) fs).1.length = fs.1.length ∧
       (L.foldl (muxChanStep targets s st T) fs).2.length = fs.2.length) := by
  induction L with
  | nil => intro fs; exact ⟨rfl, rfl⟩
  | cons i L ih =>
    intro fs
    rw [List.foldl_cons]
    exact ⟨(ih _).1.trans (muxChanStep_length targets s st T fs i).1,
      (ih _).2.trans (muxChanStep_length targets s st T fs i).2⟩

/-- A fold of mux channel steps over channels whose windows all avoid the
stride class of `p` leaves byte `p` of both segments unchanged. -/
theorem muxFold_pres (targets : List (Option (List Nat)))
    (s st T : Nat) (hs : 0 < s) (L : List Nat) :
    ∀ (fs : List Nat × List Nat) (p : Nat),
      (∀ i' ∈ L, s * i' + s ≤ st ∧ (p % st < s * i' ∨ s * i' + s ≤ p % st)) →
      ((L.foldl (muxChanStep targets s st T) fs).1[p]? = fs.1[p]? ∧
       (L.foldl (muxChanStep targets s st T) fs).2[p]? = fs.2[p]?) := by
  induction L with
  | nil => intro fs p hL; exact ⟨rfl, rfl⟩
  | cons i L ih =>
    intro fs p hL
    rw [List.foldl_cons]
    have hi := hL i (List.mem_cons_self i L)
    have hrest := ih (muxChanStep targets s st T fs i) p
      (fun i' hi' => hL i' (List.mem_cons_of_mem _ hi'))
    exact ⟨hrest.1.trans (muxChanStep_pres targets s st T hs i p hi.1 hi.2 fs).1,
      hrest.2.trans (muxChanStep_pres targets s st T hs i p hi.1 hi.2 fs).2⟩

/-- The demux copy step preserves the length of the target list. -/
theorem demuxCopyStep_length (first second : List Nat) (sz st T : Nat)
    (ts : List (Option (List Nat))) (i : Nat) :
    (demuxCopyStep first second sz st T ts i).length = ts.length := by
  rw [demuxCopyStep]
  cases h : ts.getD i none with
  | none => rfl
  | some tgt => exact List.length_set ts i _

/-- The demux silence step preserves the length of the target list. -/
theorem demuxSilenceStep_length (T : Nat)
    (ts : List (Option (List Nat))) (i : Nat) :
    (demuxSilenceStep T ts i).length = ts.length := by
  rw [demuxSilenceStep]
  cases h : ts.getD i none with
  | none => rfl
  | some tgt => exact List.length_set ts i _

/-- Demux preserves the length of the target list. -/
theorem demux_length (first second : List Nat) (ts : List (Option (List Nat)))
    (nt ns T sz : Nat) :
    (SarClient.demux first second ts nt ns T sz).length = ts.length := by
  rw [SarClient.demux]
  rw [foldl_localStep_length _ (fun ts i => demuxSilenceStep_length T ts i),
    foldl_localStep_length _
      (fun ts i => demuxCopyStep_length first second sz (sz * ns) T ts i)]

/-- Bytewise value of the ring segments produced by `SarClient.mux` with
matching channel counts: the slot of channel `i` at frame `q` holds byte
`q * s + b` of that channel buffer, in the first segment for `q < a` and in
the second for `q ≥ a`. -/
theorem mux_val (first second : List Nat) (targets : List (Option (List Nat)))
    (nch n a s i q b : Nat) (tgt_i : List Nat)
    (hs : 0 < s) (hi : i < nch)
    (hF : first.length = a * (s * nch))
    (hcap : n * (s * nch) ≤ a * (s * nch) + second.length)
    (ha0 : n ≠ 0 → a ≠ 0)
    (hti : targets.getD i none = some tgt_i) (htl : tgt_i.length = n * s)
    (hq : q < n) (hb : b < s) :
    (q < a →
      (SarClient.mux first second targets nch nch (n * s) s).1[s * i +
          q * (s * nch) + b]?
        = tgt_i[q * s + b]?) ∧
    (a ≤ q →
      (SarClient.mux first second targets nch nch (n * s) s).2[s * i +
          (q - a) * (s * nch) + b]?
        = tgt_i[q * s + b]?) := by
  have hco : s * i + s ≤ s * nch := by
    have h1 : s * (i + 1) ≤ s * nch := Nat.mul_le_mul_left s hi
    rw [Nat.mul_add, Nat.mul_one] at h1
    omega
  have hst : 0 < s * nch := by omega
  have hsplit : List.range nch
      = List.range' 0 i ++ i :: List.range' (i + 1) (nch - i - 1) := by
    have h1 := List.range'_append 0 i (nch - i) 1
    rw [show 0 + 1 * i = i from by omega] at h1
    rw [show nch - i + i = nch from by omega] at h1
    rw [List.range_eq_range', ← h1]
    congr 1
    conv_lhs => rw [show nch - i = nch - i - 1 + 1 from by omega,
      List.range'_succ]
  have hmux : SarClient.mux first second targets nch nch (n * s) s
      = (List.range' (i + 1) (nch - i - 1)).foldl
          (muxChanStep targets s (s * nch) (n * s))
          (muxChanStep targets s (s * nch) (n * s)
            ((List.range' 0 i).foldl
              (muxChanStep targets s (s * nch) (n * s)) (first, second)) i) := by
    rw [SarClient.mux]
    rw [if_neg (show ¬ nch > nch by omega), hsplit, List.foldl_append,
      List.foldl_cons]
  have hlen0 := muxFold_length targets s (s * nch) (n * s)
    (List.range' 0 i) (first, second)
  have hstep : muxChanStep targets s (s * nch) (n * s)
        ((List.range' 0 i).foldl
          (muxChanStep targets s (s * nch) (n * s)) (first, second)) i
      = muxFrames tgt_i s (s * nch) a (s * i) (List.range' 0 n)
          (((List.range' 0 i).foldl
            (muxChanStep targets s (s * nch) (n * s)) (first, second)).1,
           ((List.range' 0 i).foldl
            (muxChanStep targets s (s * nch) (n * s)) (first, second)).2) := by
    rw [muxChanStep, hti]
    exact muxChanLoop_frames tgt_i s (s * nch) (s * i) n a _ _ hs hst
      (hlen0.1.trans hF) (by rw [hlen0.2]; exact hcap) ha0 (n * s)
      (Nat.le_mul_of_pos_right n hs)
  have hrest : ∀ p : Nat, p % (s * nch) < s * i + s →
      ∀ i' ∈ List.range' (i + 1) (nch - i - 1),
        s * i' + s ≤ s * nch ∧
        (p % (s * nch) < s * i' ∨ s * i' + s ≤ p % (s * nch)) := by
    intro p hp i' hi'
    have hm := List.mem_range'_1.1 hi'
    have h2 : s * (i' + 1) ≤ s * nch := Nat.mul_le_mul_left s (by omega)
    rw [Nat.mul_add, Nat.mul_one] at h2
    have h3 : s * (i + 1) ≤ s * i' := Nat.mul_le_mul_left s (by omega)
    rw [Nat.mul_add, Nat.mul_one] at h3
    exact ⟨h2, Or.inl (by omega)⟩
  constructor
  · intro hqa
    have hmodp : (s * i + q * (s * nch) + b) % (s * nch) = s * i + b := by
      rw [show s * i + q * (s * nch) + b
          = s * i + b + q * (s * nch) from by omega,
        Nat.add_mul_mod_self_right]
      exact Nat.mod_eq_of_lt (by omega)
    rw [hmux,
      (muxFold_pres targets s (s * nch) (n * s) hs
        (List.range' (i + 1) (nch - i - 1)) _ _
        (hrest _ (by rw [hmodp]; omega))).1,
      hstep]
    exact muxFrames_fst_val tgt_i s (s * nch) a (s * i) n hs hco htl
      n 0 _ q b (by omega) (by omega) (by omega) hqa hb (hlen0.1.trans hF)
  · intro hqa
    have hmodp : (s * i + (q - a) * (s * nch) + b) % (s * nch) = s * i + b := by
      rw [show s * i + (q - a) * (s * nch) + b
          = s * i + b + (q - a) * (s * nch) from by omega,
        Nat.add_mul_mod_self_right]
      exact Nat.mod_eq_of_lt (by omega)
    rw [hmux,
      (muxFold_pres targets s (s * nch) (n * s) hs
        (List.range' (i + 1) (nch - i - 1)) _ _
        (hrest _ (by rw [hmodp]; omega))).2,
      hstep]
    exact muxFrames_snd_val tgt_i s (s * nch) a (s * i) n second.length hs hco
      htl (by rw [Nat.sub_mul]; omega)
      n 0 _ q b (by omega) (by omega) (by omega) hqa hb hlen0.2

/-- Unfolding of one frame of the demux frame fold. -/
theorem demuxFrames_cons (first second : List Nat) (s st a chanOff k : Nat)
    (frames : List Nat) (tgt : List Nat) :
    demuxFrames first second s st a chanOff (k :: frames) tgt =
      demuxFrames first second s st a chanOff frames
        (if k < a then
          writeBytes tgt (k * s) (readBytes first (chanOff + k * st) s)
        else
          writeBytes tgt (k * s) (readBytes second (chanOff + (k - a) * st) s)) := by
  rw [demuxFrames, demuxFrames, List.foldl_cons]

/-- When every frame of the traversal reads from the ring exactly the
corresponding slice of a channel buffer `v`, the demux frame fold is the
fold that writes the slices of `v`. -/
theorem demuxFrames_congr (first second v : List Nat) (s st a chanOff : Nat)
    (frames : List Nat)
    (hread : ∀ k ∈ frames,
      (if k < a then readBytes first (chanOff + k * st) s
       else readBytes second (chanOff + (k - a) * st) s)
        = readBytes v (k * s) s) :
    ∀ tgt, demuxFrames first second s st a chanOff frames tgt
      = frames.foldl
          (fun t q => writeBytes t (q * s) (readBytes v (q * s) s)) tgt := by
  induction frames with
  | nil => intro tgt; rfl
  | cons k frames ih =>
    intro tgt
    rw [demuxFrames_cons, List.foldl_cons]
    have hk := hread k (List.mem_cons_self k frames)
    rw [ih (fun k' h => hread k' (List.mem_cons_of_mem _ h))]
    congr 1
    by_cases hka : k < a
    · rw [if_pos hka]
      rw [if_pos hka] at hk
      rw [hk]
    · rw [if_neg hka]
      rw [if_neg hka] at hk
      rw [hk]

/-- Bytewise description of the slice-writing fold: positions inside the
processed frames hold the bytes of `v`, the rest keep the initial buffer. -/
theorem slicesFold_getElem? (v : List Nat) (s n : Nat) (hs : 0 < s)
    (hv : v.length = n * s) :
    ∀ M K (u : List Nat) (p : Nat), u.length = n * s → K + M ≤ n →
      ((List.range' K M).foldl
        (fun t q => writeBytes t (q * s) (readBytes v (q * s) s)) u)[p]?
      = if K * s ≤ p ∧ p < K * s + M * s then v[p]? else u[p]? := by
  intro M
  induction M with
  | zero =>
    intro K u p hu hKM
    rw [if_neg (by omega)]
    rfl
  | succ M ih =>
    intro K u p hu hKM
    rw [List.range'_succ, List.foldl_cons]
    have hu2 : (writeBytes u (K * s) (readBytes v (K * s) s)).length = n * s := by
      rw [writeBytes_length]
      exact hu
    rw [ih (K + 1) _ p hu2 (by omega)]
    have hread : (readBytes v (K * s) s).length = s := by
      rw [readBytes_length]
      have h7 : (K + 1) * s ≤ n * s := Nat.mul_le_mul_right s (by omega)
      rw [Nat.add_mul, Nat.one_mul] at h7
      omega
    have e1 : (K + 1) * s = K * s + s := by rw [Nat.add_mul, Nat.one_mul]
    have e2 : (M + 1) * s = M * s + s := by rw [Nat.add_mul, Nat.one_mul]
    rw [e1, e2]
    have hwb : K * s + s ≤ n * s := by
      have h7 : (K + 1) * s ≤ n * s := Nat.mul_le_mul_right s (by omega)
      rw [e1] at h7
      exact h7
    by_cases hA : K * s + s ≤ p ∧ p < K * s + s + M * s
    · rw [if_pos hA, if_pos (by omega)]
    · rw [if_neg hA]
      by_cases hB : K * s ≤ p ∧ p < K * s + s
      · rw [writeBytes_getElem? _ _ _ _ (by rw [hread, hu]; omega),
          if_pos (by rw [hread]; omega), if_pos (by omega)]
        rw [readBytes_getElem?, if_pos (by omega)]
        congr 1
        omega
      · rw [writeBytes_getElem? _ _ _ _ (by rw [hread, hu]; omega),
          if_neg (by rw [hread]; omega), if_neg (by omega)]

/-- Writing every slice of `v` over any buffer of the same length
reconstructs `v`. -/
theorem slicesFold_eq (v : List Nat) (s n : Nat) (hs : 0 < s)
    (hv : v.length = n * s) (u : List Nat) (hu : u.length = n * s) :
    (List.range' 0 n).foldl
      (fun t q => writeBytes t (q * s) (readBytes v (q * s) s)) u = v := by
  apply List.ext_getElem?
  intro p
  rw [slicesFold_getElem? v s n hs hv n 0 u p hu (by omega)]
  by_cases hp : p < n * s
  · rw [if_pos (by omega)]
  · rw [if_neg (by omega)]
    have h1 : u[p]? = none := List.getElem?_eq_none (by omega)
    have h2 : v[p]? = none := List.getElem?_eq_none (by omega)
    rw [h1, h2]

/-- C5 amended: interleaving non-null per-channel buffers into the ring with
`SarClient.mux` and deinterleaving the same two ring segments with
`SarClient.demux` into buffers of the same shape reproduces the original
contents bit for bit, with matching channel counts, provided the first
segment consists of a whole number of frames (nonempty when there is data)
and the two segments together hold all the frames. -/
theorem mux_demux_roundtrip (first second : List Nat)
    (targets fresh : List (Option (List Nat))) (nch n a s : Nat)
    (hs : 0 < s)
    (hF : first.length = a * (s * nch))
    (hcap : n * (s * nch) ≤ a * (s * nch) + second.length)
    (ha0 : n ≠ 0 → a ≠ 0)
    (hlent : targets.length = nch) (hlenf : fresh.length = nch)
    (htargets : ∀ i, i < nch →
      ∃ t, targets.getD i none = some t ∧ t.length = n * s)
    (hfresh : ∀ i, i < nch →
      ∃ u, fresh.getD i none = some u ∧ u.length = n * s) :
    SarClient.demux (SarClient.mux first second targets nch nch (n * s) s).1
        (SarClient.mux first second targets nch nch (n * s) s).2
        fresh nch nch (n * s) s
      = targets := by
  have hmux_eq : SarClient.mux first second targets nch nch (n * s) s
      = (List.range nch).foldl (muxChanStep targets s (s * nch) (n * s))
          (first, second) := by
    rw [SarClient.mux]
    rw [if_neg (show ¬ nch > nch by omega)]
  have hM1len : (SarClient.mux first second targets nch nch (n * s) s).1.length
      = first.length := by
    rw [hmux_eq]
    exact (muxFold_length targets s (s * nch) (n * s) (List.range nch)
      (first, second)).1
  have hM2len : (SarClient.mux first second targets nch nch (n * s) s).2.length
      = second.length := by
    rw [hmux_eq]
    exact (muxFold_length targets s (s * nch) (n * s) (List.range nch)
      (first, second)).2
  apply List.ext_getElem?
  intro k
  by_cases hk : k < nch
  · obtain ⟨t, ht, htlen⟩ := htargets k hk
    obtain ⟨u, hu, hulen⟩ := hfresh k hk
    have hst : 0 < s * nch := Nat.mul_pos hs (by omega)
    have hkt : k < targets.length := by omega
    have hko : k < (SarClient.demux
        (SarClient.mux first second targets nch nch (n * s) s).1
        (SarClient.mux first second targets nch nch (n * s) s).2
        fresh nch nch (n * s) s).length := by
      rw [demux_length]
      omega
    have hgoal : (SarClient.demux
        (SarClient.mux first second targets nch nch (n * s) s).1
        (SarClient.mux first second targets nch nch (n * s) s).2
        fresh nch nch (n * s) s).getD k none = some t := by
      rw [demux_getD, hu, Option.map_some']
      rw [if_pos (show k < (if nch > nch then nch else nch) from by
        rw [if_neg (show ¬ nch > nch by omega)]
        exact hk)]
      congr 1
      have hM1 : (SarClient.mux first second targets nch nch (n * s) s).1.length
          = a * (s * nch) := hM1len.trans hF
      have hcap2 : n * (s * nch) ≤ a * (s * nch) +
          (SarClient.mux first second targets nch nch (n * s) s).2.length := by
        rw [hM2len]
        exact hcap
      rw [demuxChanLoop_frames
        (SarClient.mux first second targets nch nch (n * s) s).1
        (SarClient.mux first second targets nch nch (n * s) s).2
        s (s * nch) (s * k) n a hs hst hM1 hcap2 ha0 (n * s)
        (Nat.le_mul_of_pos_right n hs) u]
      have hread : ∀ q ∈ List.range' 0 n,
          (if q < a then readBytes
            (SarClient.mux first second targets nch nch (n * s) s).1
            (s * k + q * (s * nch)) s
           else readBytes
            (SarClient.mux first second targets nch nch (n * s) s).2
            (s * k + (q - a) * (s * nch)) s)
            = readBytes t (q * s) s := by
        intro q hq
        have hqn : q < n := by
          have h9 := List.mem_range'_1.1 hq
          omega
        by_cases hqa : q < a
        · rw [if_pos hqa]
          apply List.ext_getElem?
          intro b
          rw [readBytes_getElem?, readBytes_getElem?]
          by_cases hb : b < s
          · rw [if_pos hb, if_pos hb]
            exact (mux_val first second targets nch n a s k q b t hs hk hF hcap
              ha0 ht htlen hqn hb).1 hqa
          · rw [if_neg hb, if_neg hb]
        · rw [if_neg hqa]
          apply List.ext_getElem?
          intro b
          rw [readBytes_getElem?, readBytes_getElem?]
          by_cases hb : b < s
          · rw [if_pos hb, if_pos hb]
            exact (mux_val first second targets nch n a s k q b t hs hk hF hcap
              ha0 ht htlen hqn hb).2 (by omega)
          · rw [if_neg hb, if_neg hb]
      rw [demuxFrames_congr
        (SarClient.mux first second targets nch nch (n * s) s).1
        (SarClient.mux first second targets nch nch (n * s) s).2
        t s (s * nch) a (s * k) (List.range' 0 n) hread u]
      exact slicesFold_eq t s n hs htlen u hulen
    rw [List.getD_eq_getElem?_getD, List.getElem?_eq_getElem hko] at hgoal
    rw [List.getElem?_eq_getElem hko, List.getElem?_eq_getElem hkt]
    rw [List.getD_eq_getElem?_getD, List.getElem?_eq_getElem hkt] at ht
    exact congrArg some (hgoal.trans ht.symm)
  · have h1 : (SarClient.demux
        (SarClient.mux first second targets nch nch (n * s) s).1
        (SarClient.mux first second targets nch nch (n * s) s).2
        fresh nch nch (n * s) s)[k]? = none :=
      List.getElem?_eq_none (by rw [demux_length]; omega)
    have h2 : targets[k]? = none := List.getElem?_eq_none (by omega)
    rw [h1, h2]

/-- C5 counterexample: with matching channel counts (2), non-null buffers
and total ring capacity sufficient for the data (3 + 5 = 8 bytes available,
4 needed), a split whose first segment length 3 is not a whole number of
frames of stride 2 makes both copy loops stop at the segment boundary, so
the round trip does not reproduce the buffers. -/
theorem mux_demux_roundtrip_counterexample :
    SarClient.demux
        (SarClient.mux [0, 0, 0] [0, 0, 0, 0, 0]
          [some [10, 20], some [30, 40]] 2 2 2 1).1
        (SarClient.mux [0, 0, 0] [0, 0, 0, 0, 0]
          [some [10, 20], some [30, 40]] 2 2 2 1).2
        [some [0, 0], some [0, 0]] 2 2 2 1
      ≠ [some [10, 20], some [30, 40]] := by
  decide

/-- Closed instance of `mux_demux_roundtrip` on one channel, one byte per
sample and a ring split into two one-frame segments. -/
theorem mux_demux_roundtrip_witness :
    (0 : Nat) < 1 ∧
    SarClient.demux
        (SarClient.mux [9] [7] [some [5, 6]] 1 1 2 1).1
        (SarClient.mux [9] [7] [some [5, 6]] 1 1 2 1).2
        [some [0, 0]] 1 1 2 1
      = [some [5, 6]] :=
  ⟨Nat.one_pos,
    mux_demux_roundtrip [9] [7] [some [5, 6]] [some [0, 0]] 1 2 1 1
      Nat.one_pos (by decide) (by decide) (fun _ => by decide)
      (by decide) (by decide)
      (fun i hi => by
        have hi0 : i = 0 := by omega
        subst hi0
        exact ⟨[5, 6], rfl, rfl⟩)
      (fun i hi => by
        have hi0 : i = 0 := by omega
        subst hi0
        exact ⟨[0, 0], rfl, rfl⟩)⟩
